import Mathlib

/-!
# Winpinator remote peer manager: a verification development

Shallow embedding of `src/service/remote_manager.cpp` (class `srv::RemoteManager`) and of
`HostListPage::onManipulateList` in `src/gui/page_hostlist.cpp`.

Conventions of the embedding

* `std::string` is a Lean `String`; one `Char` stands for one `char` element, so
  `length()` is `String.length` and `substr` works on the character list.
* `std::map<std::string, std::string>` (the TXT records of an announcement) is an
  association list read with `List.lookup`; `find(k) == end()` is `lookup k = none`
  and `at(k)` is the value found.
* `size_t` arithmetic is arithmetic on `Nat` modulo `2^64`.
* Ports are natural numbers; the conversion `(uint16_t)` is reduction modulo `2^16`.
* Code with undefined behaviour returns `none`.
* The manager's mutex, the per-record mutexes and the worker threads appear as
  events of a trace where a function's order of operations matters (`stop`,
  `doRegistrationV1`), and as the ghost field `started` (workers started so far, by
  record id).
* The network, the validator and the thread that sets `stopping` are the environment
  of the worker: a script of rounds and waits, and a validator function.
-/

namespace srv

/-! ## Data model -/

/-- Address pair of an announcement (`zc::MdnsIpPair`). -/
structure MdnsIpPair where
  valid : Bool
  ipv4 : String
  ipv6 : String
  deriving DecidableEq, Repr

/-- Resolved announcement handed to the manager (`zc::MdnsServiceData`). -/
structure MdnsServiceData where
  name : String
  ipv4 : String
  ipv6 : String
  port : Nat
  txtRecords : List (String × String)
  deriving DecidableEq, Repr

/-- Modelled from the spec: the enumeration `RemoteStatus` is declared in a header that
is not among the sources; the spec's data model lists the values
`REGISTERING, ONLINE, OFFLINE, UNREACHABLE`. -/
inductive RemoteStatus where
  | REGISTERING
  | ONLINE
  | OFFLINE
  | UNREACHABLE
  deriving DecidableEq, Repr

/-- State of the `std::thread` member of a record: default constructed (no thread),
running and joinable, or already joined. -/
inductive ThreadState where
  | none
  | joinable
  | joined
  deriving DecidableEq, Repr

/-- One peer record (`RemoteInfo`), with the members the manager reads or writes. -/
structure RemoteInfo where
  id : String
  visible : Bool
  ips : MdnsIpPair
  port : Nat
  authPort : Nat
  apiVersion : Int
  os : String
  hostname : String
  state : RemoteStatus
  stopping : Bool
  thread : ThreadState
  deriving DecidableEq, Repr

/-- Modelled from the spec: the declaration of `RemoteInfo` (its member initialisers) is
not among the sources, and `processAddHost` never assigns `state` or `stopping`. The
record made by `std::make_shared<RemoteInfo>()` is taken as the spec describes a newly
constructed Peer Record: status `REGISTERING`, cancellation flag clear, no thread yet;
the remaining members are value-initialised (empty strings, zero, false). -/
def RemoteInfo.make_shared : RemoteInfo :=
  { id := "", visible := false, ips := { valid := false, ipv4 := "", ipv6 := "" },
    port := 0, authPort := 0, apiVersion := 0, os := "", hostname := "",
    state := RemoteStatus.REGISTERING, stopping := false, thread := ThreadState.none }

/-- The manager: the configured service type, the roster in insertion order, and the
ghost list `started` of the ids of the records for which a worker thread was started. -/
structure RemoteManager where
  m_srvType : String
  m_hosts : List RemoteInfo
  started : List String
  deriving DecidableEq, Repr

/-- Constructor `RemoteManager::RemoteManager`: empty service type, empty roster. -/
def RemoteManager.new : RemoteManager :=
  { m_srvType := "", m_hosts := [], started := [] }

/-- Constant `RemoteManager::FALLBACK_OS` (line 16). -/
def FALLBACK_OS : String := "Linux"

/-- Constant `RemoteManager::REQUEST` (line 17), the request token of the version-1
registration. -/
def REQUEST : String := "REQUEST"

/-! ## C library and `std::string` helpers -/

/-- Whitespace test `isspace` of the C locale. -/
def isspace (c : Char) : Bool :=
  c == ' ' || c == '\t' || c == '\n' || c == '\x0b' || c == '\x0c' || c == '\r'

/-- Value of the longest prefix of decimal digits, accumulated left to right. -/
def digitsValue : Nat → List Char → Nat
  | acc, [] => acc
  | acc, c :: cs => if c.isDigit then digitsValue (acc * 10 + (c.toNat - 48)) cs else acc

/-- Largest value of the 32-bit `int`. -/
def INT_MAX : Int := 2147483647

/-- Smallest value of the 32-bit `int`. -/
def INT_MIN : Int := -2147483648

/-- Saturation of an out-of-range result to the range of `int`, as the Microsoft C
runtime documents for `atoi` (the C standard leaves the overflow case undefined). -/
def saturateInt (v : Int) : Int :=
  if v < INT_MIN then INT_MIN else if v > INT_MAX then INT_MAX else v

/-- The C function `atoi`: skip leading whitespace, read an optional sign, then the
longest run of decimal digits; no digits give 0. -/
def atoi (s : String) : Int :=
  match s.data.dropWhile isspace with
  | '-' :: rest => saturateInt (-(digitsValue 0 rest : Int))
  | '+' :: rest => saturateInt (digitsValue 0 rest : Int)
  | cs => saturateInt (digitsValue 0 cs : Int)

/-- Conversion of an `int` to `uint16_t`. -/
def toUInt16 (v : Int) : Nat := (v % 65536).toNat

/-- Method `std::string::substr(pos)`, for `pos ≤ size()` (the only use in the code). -/
def substrFrom (s : String) (pos : Nat) : String := String.mk (s.data.drop pos)

/-- Method `std::string::substr(pos, n)`, for `pos ≤ size()`. -/
def substr (s : String) (pos n : Nat) : String := String.mk ((s.data.drop pos).take n)

/-- Unchecked `std::string::operator[]`: the element at `pos < size()`, the terminating
null character at `pos = size()`, undefined behaviour beyond. -/
def stringIndex (s : String) (pos : Nat) : Option Char :=
  if pos < s.length then s.data.get? pos
  else if pos = s.length then some (Char.ofNat 0)
  else none

/-- Number of values of `size_t` (64 bits). -/
def SIZE_MOD : Nat := 2 ^ 64

/-! ## Operations of `RemoteManager` -/

/-- Method `RemoteManager::getTotalHostsCount`. -/
def getTotalHostsCount (rm : RemoteManager) : Nat := rm.m_hosts.length

/-- Method `RemoteManager::getVisibleHostsCount`: the counting loop over the roster. -/
def getVisibleHostsCount (rm : RemoteManager) : Nat :=
  rm.m_hosts.foldl (fun count info => if info.visible then count + 1 else count) 0

/-- Method `RemoteManager::setServiceType`. The index `length() - 1` is computed in `size_t`. -/
def setServiceType (rm : RemoteManager) (serviceType : String) : Option RemoteManager :=
  let m_srvType := serviceType
  match stringIndex m_srvType ((m_srvType.length + SIZE_MOD - 1) % SIZE_MOD) with
  | none => none
  | some c =>
    if c != '.' then some { rm with m_srvType := m_srvType.push '.' }
    else some { rm with m_srvType := m_srvType }

/-- Method `RemoteManager::getServiceType`. -/
def getServiceType (rm : RemoteManager) : String := rm.m_srvType

/-- Method `RemoteManager::stripServiceFromIdent`. -/
def stripServiceFromIdent (rm : RemoteManager) (identStr : String) : String :=
  if identStr.length ≤ rm.m_srvType.length then identStr
  else
    let subOffset := identStr.length - rm.m_srvType.length
    if substrFrom identStr subOffset = rm.m_srvType then substr identStr 0 subOffset
    else identStr

/-- The record that `processAddHost` fills in for an accepted announcement
(lines 111-159), the worker thread already started. -/
def buildRemoteInfo (rm : RemoteManager) (data : MdnsServiceData) (hostname : String) :
    RemoteInfo :=
  let info := RemoteInfo.make_shared
  let info := { info with visible := false }
  let info := { info with id := stripServiceFromIdent rm data.name }
  let info := { info with ips := { valid := true, ipv4 := data.ipv4, ipv6 := data.ipv6 } }
  let info := { info with port := data.port }
  let info := { info with hostname := hostname }
  let info :=
    match data.txtRecords.lookup "api-version" with
    | none => { info with apiVersion := 1 }
    | some txt =>
      let info := { info with apiVersion := atoi txt }
      let info := if info.apiVersion < 1 then { info with apiVersion := 1 } else info
      if info.apiVersion > 2 then { info with apiVersion := 2 } else info
  let info :=
    match data.txtRecords.lookup "auth-port" with
    | none => { info with authPort := info.port }
    | some txt => { info with authPort := toUInt16 (atoi txt) }
  let info :=
    match data.txtRecords.lookup "os" with
    | none => { info with os := FALLBACK_OS }
    | some txt => { info with os := txt }
  { info with thread := ThreadState.joinable }

/-- Method `RemoteManager::processAddHost`. -/
def processAddHost (rm : RemoteManager) (data : MdnsServiceData) : RemoteManager :=
  match data.txtRecords.lookup "type" with
  | none => rm
  | some type =>
    match data.txtRecords.lookup "hostname" with
    | none => rm
    | some hostname =>
      if type ≠ "real" then rm
      else
        let info := buildRemoteInfo rm data hostname
        { rm with started := rm.started ++ [info.id], m_hosts := rm.m_hosts ++ [info] }

/-- Method `RemoteManager::processRemoveHost`: not implemented, the roster is untouched. -/
def processRemoveHost (rm : RemoteManager) (_id : String) : RemoteManager := rm

/-! ## Shutdown: `RemoteManager::stop` as a trace of synchronisation events -/

/-- Synchronisation events of `stop`; a record is named by its position in `m_hosts`. -/
inductive Event where
  | lockRoster
  | unlockRoster
  | lock (i : Nat)
  | unlock (i : Nat)
  | setStopping (i : Nat)
  | notifyAll (i : Nat)
  | join (i : Nat)
  deriving DecidableEq, Repr

/-- Body of the first loop of `stop` for the record at position `i` (lines 36-39): the
record's `lock_guard` is taken, the flag set, the condition variable notified, and the
guard released at the end of the iteration. -/
def signalEvents (i : Nat) : List Event :=
  [Event.lock i, Event.setStopping i, Event.notifyAll i, Event.unlock i]

/-- First loop of `stop` (lines 34-40) over the records from position `i` on: the
updated records and the events, in order. -/
def stopSignal : Nat → List RemoteInfo → List RemoteInfo × List Event
  | _, [] => ([], [])
  | i, info :: rest =>
    ({ info with stopping := true } :: (stopSignal (i + 1) rest).1,
      signalEvents i ++ (stopSignal (i + 1) rest).2)

/-- Second loop of `stop` (lines 42-45) over the records from position `i` on: the
updated records, the events, and whether the loop ran to its end. `std::thread::join`
on a thread that is not joinable throws `std::system_error`, which ends the loop. -/
def stopJoin : Nat → List RemoteInfo → List RemoteInfo × List Event × Bool
  | _, [] => ([], [], true)
  | i, info :: rest =>
    if info.thread = ThreadState.joinable then
      ({ info with thread := ThreadState.joined } :: (stopJoin (i + 1) rest).1,
        Event.join i :: (stopJoin (i + 1) rest).2.1,
        (stopJoin (i + 1) rest).2.2)
    else (info :: rest, [Event.join i], false)

/-- Outcome of `stop`: the manager afterwards, the events in order, and whether `stop`
returned normally (`false`: it left with the exception of a failed `join`). -/
structure StopResult where
  rm : RemoteManager
  trace : List Event
  returned : Bool
  deriving DecidableEq, Repr

/-- Method `RemoteManager::stop`. The roster `lock_guard` spans the whole body and is released
when the function is left, normally or by exception. -/
def stop (rm : RemoteManager) : StopResult :=
  let signalled := stopSignal 0 rm.m_hosts
  let joined := stopJoin 0 signalled.1
  { rm := { rm with m_hosts := joined.1 },
    trace := [Event.lockRoster] ++ signalled.2 ++ joined.2.1 ++ [Event.unlockRoster],
    returned := joined.2.2 }

/-- Record locks held after a sequence of events, starting from the locks `held`. -/
def heldRecordLocks (held : List Nat) : List Event → List Nat
  | [] => held
  | Event.lock i :: rest => heldRecordLocks (i :: held) rest
  | Event.unlock i :: rest => heldRecordLocks (held.erase i) rest
  | _ :: rest => heldRecordLocks held rest

/-! ## The registration worker: `remoteThreadEntry`, `doRegistrationV1`

The worker runs against an environment given as a script: one `Round` for every
`SendTo`/`RecvFrom` round, in order, and one `Bool` for every `wait_for`, in order.
The worker never writes `stopping`; the manager sets it from another thread, which the
script records round by round. A run whose script ends before the function returns has
result `none`. -/

/-- Socket address (`wxIPV4address`): host and service (port). -/
structure IPV4address where
  hostname : String
  service : Nat
  deriving DecidableEq, Repr

/-- What the environment does during one send/receive round (lines 240-249): the
address and the bytes that `RecvFrom` delivers (`LastReadCount()` is the length of
`replyBuf`; nothing read within the timeout gives length 0), and whether the manager
set the record's `stopping` flag while the round was under way. -/
structure Round where
  replyAddr : IPV4address
  replyBuf : String
  stopSet : Bool
  deriving DecidableEq, Repr

/-- Observable steps of the worker. `stopRequested` is the environment's step of
setting the flag; the others are the worker's own calls. -/
inductive WorkerEvent where
  | sendTo
  | stopRequested
  | processRemoteCert (msg : String)
  | lock
  | waitFor (seconds : Nat)
  | unlock
  deriving DecidableEq, Repr

/-- Ways of leaving the loop `while ( tryCount < 3 )`: the `return` of line 263, the
loop condition becoming false, or the end of the script. -/
inductive LoopExit where
  | returned (value : Bool)
  | retryLimit
  | scriptEnded
  deriving DecidableEq, Repr

/-- State after the loop `while ( tryCount < 3 )`. -/
structure LoopResult where
  exit : LoopExit
  serviceInfo : RemoteInfo
  trace : List WorkerEvent
  rest : List Round
  deriving DecidableEq, Repr

/-- Address `destination` of lines 234-236. -/
def destination (serviceInfo : RemoteInfo) : IPV4address :=
  { hostname := serviceInfo.ips.ipv4, service := serviceInfo.port }

/-- Events of one round: the request is sent, and the manager may set the flag. -/
def roundEvents (r : Round) : List WorkerEvent :=
  WorkerEvent.sendTo :: (if r.stopSet then [WorkerEvent.stopRequested] else [])

/-- The loop `while ( tryCount < 3 )` of `doRegistrationV1` (lines 238-266), from the
given `tryCount`. The validator `AuthManager::processRemoteCert` is a parameter. -/
def attemptLoop (processRemoteCert : String → MdnsIpPair → String → Bool) :
    Nat → RemoteInfo → List Round → LoopResult
  | tryCount, serviceInfo, [] =>
    if tryCount < 3 then
      { exit := LoopExit.scriptEnded, serviceInfo := serviceInfo, trace := [], rest := [] }
    else
      { exit := LoopExit.retryLimit, serviceInfo := serviceInfo, trace := [], rest := [] }
  | tryCount, serviceInfo, r :: rest =>
    if tryCount < 3 then
      let info := { serviceInfo with stopping := serviceInfo.stopping || r.stopSet }
      let length := r.replyBuf.length
      if length = 0 then
        let next := attemptLoop processRemoteCert (tryCount + 1) info rest
        { next with trace := roundEvents r ++ next.trace }
      else if r.replyAddr = destination serviceInfo then
        let msg := r.replyBuf
        { exit := LoopExit.returned (processRemoteCert info.hostname info.ips msg),
          serviceInfo := info,
          trace := roundEvents r ++ [WorkerEvent.processRemoteCert msg],
          rest := rest }
      else
        let next := attemptLoop processRemoteCert tryCount info rest
        { next with trace := roundEvents r ++ next.trace }
    else
      { exit := LoopExit.retryLimit, serviceInfo := serviceInfo, trace := [],
        rest := r :: rest }

/-- Outcome of a run of the worker: the returned value (`none` when the script ended
first), the record afterwards, and the events in order. -/
structure Run where
  result : Option Bool
  serviceInfo : RemoteInfo
  trace : List WorkerEvent
  deriving DecidableEq, Repr

/-- Method `RemoteManager::doRegistrationV1` (lines 221-282). `waits` has one entry for
every `wait_for`: whether the flag is set by the time the wait has returned and the
loop condition of line 279 is read. The `unique_lock` of line 272 is released when the
body of the `do` is left. -/
def doRegistrationV1 (processRemoteCert : String → MdnsIpPair → String → Bool) :
    List Bool → RemoteInfo → List Round → Run
  | [], serviceInfo, rounds =>
    let loop := attemptLoop processRemoteCert 0 serviceInfo rounds
    match loop.exit with
    | LoopExit.returned value =>
      { result := some value, serviceInfo := loop.serviceInfo, trace := loop.trace }
    | LoopExit.scriptEnded =>
      { result := none, serviceInfo := loop.serviceInfo, trace := loop.trace }
    | LoopExit.retryLimit =>
      if loop.serviceInfo.stopping then
        { result := some false, serviceInfo := loop.serviceInfo,
          trace := loop.trace ++ [WorkerEvent.lock, WorkerEvent.unlock] }
      else
        { result := none, serviceInfo := loop.serviceInfo,
          trace := loop.trace ++ [WorkerEvent.lock, WorkerEvent.waitFor 30] }
  | w :: waits, serviceInfo, rounds =>
    let loop := attemptLoop processRemoteCert 0 serviceInfo rounds
    match loop.exit with
    | LoopExit.returned value =>
      { result := some value, serviceInfo := loop.serviceInfo, trace := loop.trace }
    | LoopExit.scriptEnded =>
      { result := none, serviceInfo := loop.serviceInfo, trace := loop.trace }
    | LoopExit.retryLimit =>
      if loop.serviceInfo.stopping then
        { result := some false, serviceInfo := loop.serviceInfo,
          trace := loop.trace ++ [WorkerEvent.lock, WorkerEvent.unlock] }
      else
        let info := { loop.serviceInfo with stopping := loop.serviceInfo.stopping || w }
        let events := loop.trace ++ [WorkerEvent.lock, WorkerEvent.waitFor 30] ++
          (if w then [WorkerEvent.stopRequested] else []) ++ [WorkerEvent.unlock]
        if !info.stopping then
          let next := doRegistrationV1 processRemoteCert waits info loop.rest
          { next with trace := events ++ next.trace }
        else
          { result := some false, serviceInfo := info, trace := events }

/-- Method `RemoteManager::doRegistrationV2` (lines 284-290): not implemented, always
`false`. -/
def doRegistrationV2 (_serviceInfo : RemoteInfo) : Bool := false

/-- Exit status `EXIT_SUCCESS`. -/
def EXIT_SUCCESS : Int := 0

/-- Outcome of the thread function: the exit status (`none` when the script ended
first), the record afterwards, and the events in order. -/
structure ThreadRun where
  exitCode : Option Int
  serviceInfo : RemoteInfo
  trace : List WorkerEvent
  deriving DecidableEq, Repr

/-- Method `RemoteManager::remoteThreadEntry` (lines 188-219). -/
def remoteThreadEntry (processRemoteCert : String → MdnsIpPair → String → Bool)
    (waits : List Bool) (serviceInfo : RemoteInfo) (rounds : List Round) : ThreadRun :=
  if serviceInfo.apiVersion = 1 then
    let run := doRegistrationV1 processRemoteCert waits serviceInfo rounds
    match run.result with
    | none => { exitCode := none, serviceInfo := run.serviceInfo, trace := run.trace }
    | some false =>
      { exitCode := some EXIT_SUCCESS, serviceInfo := run.serviceInfo, trace := run.trace }
    | some true =>
      if run.serviceInfo.stopping then
        { exitCode := some EXIT_SUCCESS, serviceInfo := run.serviceInfo, trace := run.trace }
      else
        { exitCode := some EXIT_SUCCESS, serviceInfo := run.serviceInfo, trace := run.trace }
  else if serviceInfo.apiVersion = 2 then
    if !doRegistrationV2 serviceInfo then
      { exitCode := some EXIT_SUCCESS, serviceInfo := serviceInfo, trace := [] }
    else if serviceInfo.stopping then
      { exitCode := some EXIT_SUCCESS, serviceInfo := serviceInfo, trace := [] }
    else
      { exitCode := some EXIT_SUCCESS, serviceInfo := serviceInfo, trace := [] }
  else if serviceInfo.stopping then
    { exitCode := some EXIT_SUCCESS, serviceInfo := serviceInfo, trace := [] }
  else
    { exitCode := some EXIT_SUCCESS, serviceInfo := serviceInfo, trace := [] }

/-! ### Sample record and rounds for concrete runs -/

/-- Sample record: what `processAddHost` makes of an announcement of `alice`. -/
def samplePeer : RemoteInfo :=
  buildRemoteInfo { m_srvType := "._ws._tcp.local.", m_hosts := [], started := [] }
    { name := "alice._ws._tcp.local.", ipv4 := "10.0.0.2", ipv6 := "", port := 52000,
      txtRecords := [("hostname", "alice-pc"), ("type", "real")] }
    "alice-pc"

/-- Sample round: nothing is read within the timeout. -/
def timeoutRound : Round :=
  { replyAddr := { hostname := "", service := 0 }, replyBuf := "", stopSet := false }

/-- Sample round: nothing is read, and the manager sets the flag meanwhile. -/
def timeoutStopRound : Round :=
  { replyAddr := { hostname := "", service := 0 }, replyBuf := "", stopSet := true }

/-- Sample round: the peer itself answers. -/
def certRound : Round :=
  { replyAddr := { hostname := "10.0.0.2", service := 52000 }, replyBuf := "CERT",
    stopSet := false }

/-- Sample round: another host answers. -/
def strayRound : Round :=
  { replyAddr := { hostname := "10.0.0.7", service := 52000 }, replyBuf := "XX",
    stopSet := false }

/-- Sample validator that accepts every certificate. -/
def acceptAll : String → MdnsIpPair → String → Bool := fun _ _ _ => true

end srv

/-! ## The host list page: `HostListPage::onManipulateList` (`src/gui/page_hostlist.cpp`) -/

namespace gui

open srv

/-- Kind of a list event. The declaration of `ThreadEventType` is not among the sources;
`ADD` and `RESET` are the two enumerators the `switch` names, `OTHER` stands for any
other value, for which the `switch` has no case. -/
inductive ThreadEventType where
  | ADD
  | RESET
  | OTHER
  deriving DecidableEq, Repr

/-- The `wxThreadEvent` handed to `onManipulateList`: `GetInt()` as the kind and the
payload record (read for `ADD` only). -/
structure ThreadEvent where
  type : ThreadEventType
  payload : RemoteInfo
  deriving DecidableEq, Repr

/-- The members of `HostListPage` that `onManipulateList` touches: the tracked records
and the list widget, whose items are named by the records they were converted from. -/
structure HostListPage where
  m_trackedRemotes : List RemoteInfo
  m_hostlist : List RemoteInfo
  deriving DecidableEq, Repr

/-- The search loop of lines 172-178: `true` when some tracked record has the id, which
is where the handler returns early. -/
def idTracked (id : String) : List RemoteInfo → Bool
  | [] => false
  | ptr :: rest => if id = ptr.id then true else idTracked id rest

/-- Method `HostListPage::onManipulateList` (lines 164-195). -/
def onManipulateList (page : HostListPage) (event : ThreadEvent) : HostListPage :=
  match event.type with
  | ThreadEventType.ADD =>
    let info := event.payload
    if idTracked info.id page.m_trackedRemotes then page
    else
      { m_trackedRemotes := page.m_trackedRemotes ++ [info],
        m_hostlist := page.m_hostlist ++ [info] }
  | ThreadEventType.RESET => { m_trackedRemotes := [], m_hostlist := [] }
  | ThreadEventType.OTHER => page

end gui

namespace srv

/-- An announcement `processAddHost` accepts: `type` is `"real"` and `hostname` is present. -/
def accepted (data : MdnsServiceData) : Prop :=
  data.txtRecords.lookup "type" = some "real" ∧ (data.txtRecords.lookup "hostname").isSome = true

instance (data : MdnsServiceData) : Decidable (accepted data) := by
  unfold accepted; exact inferInstance

/-! ## Auxiliary lemmas -/

theorem processAddHost_accepted (rm : RemoteManager) (data : MdnsServiceData)
    (h : accepted data) :
    ∃ hostname, data.txtRecords.lookup "hostname" = some hostname ∧
      processAddHost rm data =
        { rm with
          started := rm.started ++ [(buildRemoteInfo rm data hostname).id],
          m_hosts := rm.m_hosts ++ [buildRemoteInfo rm data hostname] } := by
  obtain ⟨ht, hh⟩ := h
  obtain ⟨hostname, hn⟩ := Option.isSome_iff_exists.mp hh
  refine ⟨hostname, hn, ?_⟩
  simp [processAddHost, ht, hn]

theorem buildRemoteInfo_id (rm : RemoteManager) (data : MdnsServiceData) (hostname : String) :
    (buildRemoteInfo rm data hostname).id = stripServiceFromIdent rm data.name := by
  unfold buildRemoteInfo
  cases data.txtRecords.lookup "api-version" <;> cases data.txtRecords.lookup "auth-port" <;>
    cases data.txtRecords.lookup "os" <;> simp <;> split_ifs <;> rfl

theorem buildRemoteInfo_fields (rm : RemoteManager) (data : MdnsServiceData)
    (hostname : String) :
    (buildRemoteInfo rm data hostname).visible = false ∧
    (buildRemoteInfo rm data hostname).state = RemoteStatus.REGISTERING ∧
    (buildRemoteInfo rm data hostname).hostname = hostname ∧
    (buildRemoteInfo rm data hostname).port = data.port ∧
    (buildRemoteInfo rm data hostname).ips =
      { valid := true, ipv4 := data.ipv4, ipv6 := data.ipv6 } ∧
    (buildRemoteInfo rm data hostname).thread = ThreadState.joinable := by
  unfold buildRemoteInfo
  cases data.txtRecords.lookup "api-version" <;> cases data.txtRecords.lookup "auth-port" <;>
    cases data.txtRecords.lookup "os" <;> simp <;> (try split_ifs) <;>
    simp [RemoteInfo.make_shared]

theorem buildRemoteInfo_apiVersion (rm : RemoteManager) (data : MdnsServiceData)
    (hostname : String) :
    (buildRemoteInfo rm data hostname).apiVersion =
      match data.txtRecords.lookup "api-version" with
      | none => 1
      | some txt => max 1 (min 2 (atoi txt)) := by
  unfold buildRemoteInfo
  cases data.txtRecords.lookup "api-version" <;> cases data.txtRecords.lookup "auth-port" <;>
    cases data.txtRecords.lookup "os" <;> simp <;> (try split_ifs) <;>
    simp_all [max_def, min_def] <;> (try split_ifs) <;> omega

theorem buildRemoteInfo_authPort (rm : RemoteManager) (data : MdnsServiceData)
    (hostname : String) :
    (buildRemoteInfo rm data hostname).authPort =
      match data.txtRecords.lookup "auth-port" with
      | none => data.port
      | some txt => toUInt16 (atoi txt) := by
  unfold buildRemoteInfo
  cases data.txtRecords.lookup "api-version" <;> cases data.txtRecords.lookup "auth-port" <;>
    cases data.txtRecords.lookup "os" <;> simp <;> split_ifs <;> rfl

theorem buildRemoteInfo_os (rm : RemoteManager) (data : MdnsServiceData)
    (hostname : String) :
    (buildRemoteInfo rm data hostname).os =
      match data.txtRecords.lookup "os" with
      | none => FALLBACK_OS
      | some txt => txt := by
  unfold buildRemoteInfo
  cases data.txtRecords.lookup "api-version" <;> cases data.txtRecords.lookup "auth-port" <;>
    cases data.txtRecords.lookup "os" <;> simp

/-! ## Rejected announcements (C1) -/

/-- C1: an announcement without `type`, without `hostname`, or with a `type` other than
`"real"` leaves the manager as it was: the roster has the same records in the same
order and no worker is started. -/
theorem processAddHost_rejected (rm : RemoteManager) (data : MdnsServiceData)
    (h : data.txtRecords.lookup "type" = none ∨ data.txtRecords.lookup "hostname" = none ∨
      ∃ t, data.txtRecords.lookup "type" = some t ∧ t ≠ "real") :
    (processAddHost rm data).m_hosts = rm.m_hosts ∧
    (processAddHost rm data).started = rm.started ∧
    processAddHost rm data = rm := by
  have key : processAddHost rm data = rm := by
    unfold processAddHost
    rcases h with h | h | ⟨t, h, hne⟩
    · simp [h]
    · cases data.txtRecords.lookup "type" <;> simp [h]
    · cases data.txtRecords.lookup "hostname" <;> simp [h, hne]
  simp [key]

/-- C1, at an announcement of type `"printer"` with a hostname. -/
theorem processAddHost_rejected_witness :
    (processAddHost { m_srvType := "._ws._tcp.local.", m_hosts := [], started := [] }
        { name := "p._ws._tcp.local.", ipv4 := "10.0.0.9", ipv6 := "", port := 631,
          txtRecords := [("type", "printer"), ("hostname", "p")] }).m_hosts = [] :=
  (processAddHost_rejected _ _ (Or.inr (Or.inr ⟨"printer", by decide, by decide⟩))).1

/-! ## Identifier normalisation (C2) -/

/-- C2, as stated, fails: a name equal to the service type has it as an exact trailing
match and comes back unchanged, suffix included; and a name that ends in the service
type twice keeps the earlier occurrence. -/
theorem stripServiceFromIdent_whole_name_kept :
    stripServiceFromIdent { m_srvType := "._ws._tcp.local.", m_hosts := [], started := [] }
        ("" ++ "._ws._tcp.local.") = "._ws._tcp.local." ∧
    stripServiceFromIdent { m_srvType := "._ws._tcp.local.", m_hosts := [], started := [] }
        ("" ++ "._ws._tcp.local.") ≠ "" ∧
    stripServiceFromIdent { m_srvType := "._ws._tcp.local.", m_hosts := [], started := [] }
        ("alice._ws._tcp.local." ++ "._ws._tcp.local.") = "alice._ws._tcp.local." := by
  decide

/-- C2, amended: a name made of a non-empty part followed by the service type is
normalised to that part, the one trailing occurrence removed; a name that is the
service type itself is returned unchanged. -/
theorem stripServiceFromIdent_strips (rm : RemoteManager) (base : String) (h : base ≠ "") :
    stripServiceFromIdent rm (base ++ rm.m_srvType) = base ∧
    stripServiceFromIdent rm rm.m_srvType = rm.m_srvType := by
  have hlen : 0 < base.length := by
    rcases base with ⟨l⟩
    cases l with
    | nil => exact absurd rfl h
    | cons c cs => exact Nat.succ_pos _
  constructor
  · unfold stripServiceFromIdent
    have h1 : ¬ (base ++ rm.m_srvType).length ≤ rm.m_srvType.length := by
      rw [String.length_append]; omega
    have h2 : (base ++ rm.m_srvType).length - rm.m_srvType.length = base.data.length := by
      rw [String.length_append, Nat.add_sub_cancel]; rfl
    simp only [h1, if_false, h2]
    simp [substrFrom, substr, String.data_append]
  · simp [stripServiceFromIdent]

/-- C2 amended, at the name `alice._ws._tcp.local.`. -/
theorem stripServiceFromIdent_strips_witness :
    stripServiceFromIdent { m_srvType := "._ws._tcp.local.", m_hosts := [], started := [] }
        ("alice" ++ "._ws._tcp.local.") = "alice" :=
  (stripServiceFromIdent_strips
    { m_srvType := "._ws._tcp.local.", m_hosts := [], started := [] } "alice" (by decide)).1

/-! ## Fields of an accepted record (C3, C4, C5, C8) -/

/-- C3: the record added for an accepted announcement has `apiVersion` 1 when
`api-version` is absent and otherwise `atoi` of the text clamped to the range from 1
to 2; the texts `"0"`, `"5"` and `"2"` give 1, 2 and 2; the version is always 1 or 2. -/
theorem processAddHost_apiVersion (rm : RemoteManager) (data : MdnsServiceData)
    (h : accepted data) :
    ∃ info, (processAddHost rm data).m_hosts = rm.m_hosts ++ [info] ∧
      (data.txtRecords.lookup "api-version" = none → info.apiVersion = 1) ∧
      (∀ txt, data.txtRecords.lookup "api-version" = some txt →
        info.apiVersion = max 1 (min 2 (atoi txt))) ∧
      (data.txtRecords.lookup "api-version" = some "0" → info.apiVersion = 1) ∧
      (data.txtRecords.lookup "api-version" = some "5" → info.apiVersion = 2) ∧
      (data.txtRecords.lookup "api-version" = some "2" → info.apiVersion = 2) ∧
      (info.apiVersion = 1 ∨ info.apiVersion = 2) := by
  obtain ⟨hostname, _, hadd⟩ := processAddHost_accepted rm data h
  refine ⟨buildRemoteInfo rm data hostname, by rw [hadd], ?_⟩
  have hv := buildRemoteInfo_apiVersion rm data hostname
  refine ⟨?_, ?_, ?_, ?_, ?_, ?_⟩
  · intro hnone; rw [hv, hnone]
  · intro txt hsome; rw [hv, hsome]
  · intro hsome; rw [hv, hsome]; decide
  · intro hsome; rw [hv, hsome]; decide
  · intro hsome; rw [hv, hsome]; decide
  · rw [hv]
    cases data.txtRecords.lookup "api-version" with
    | none => exact Or.inl rfl
    | some txt =>
      simp only [max_def, min_def]
      split_ifs <;> omega

/-- C3, at an announcement with `api-version` `"5"`. -/
theorem processAddHost_apiVersion_witness :
    (processAddHost RemoteManager.new
        { name := "alice", ipv4 := "10.0.0.2", ipv6 := "", port := 52000,
          txtRecords := [("api-version", "5"), ("hostname", "alice-pc"), ("type", "real")] }
        ).m_hosts.map RemoteInfo.apiVersion = [2] := by
  obtain ⟨info, hl, _, _, _, h5, _⟩ := processAddHost_apiVersion RemoteManager.new
    { name := "alice", ipv4 := "10.0.0.2", ipv6 := "", port := 52000,
      txtRecords := [("api-version", "5"), ("hostname", "alice-pc"), ("type", "real")] }
    (by decide)
  rw [hl]
  simp [RemoteManager.new, h5 (by decide)]

/-- C4: the record added for an accepted announcement has `authPort` equal to the main
port when `auth-port` is absent and to the `uint16_t` value of the announced text
otherwise (the announced number itself when it is a port number), `os` equal to
`"Linux"` when `os` is absent and to the announced text otherwise, and hostname, port
and addresses copied from the announcement. -/
theorem processAddHost_optional_fields (rm : RemoteManager) (data : MdnsServiceData)
    (hostname : String) (ht : data.txtRecords.lookup "type" = some "real")
    (hh : data.txtRecords.lookup "hostname" = some hostname) :
    ∃ info, (processAddHost rm data).m_hosts = rm.m_hosts ++ [info] ∧
      (data.txtRecords.lookup "auth-port" = none → info.authPort = data.port) ∧
      (∀ txt, data.txtRecords.lookup "auth-port" = some txt →
        info.authPort = toUInt16 (atoi txt) ∧
        (0 ≤ atoi txt → atoi txt < 65536 → (info.authPort : Int) = atoi txt)) ∧
      (data.txtRecords.lookup "os" = none → info.os = "Linux") ∧
      (∀ txt, data.txtRecords.lookup "os" = some txt → info.os = txt) ∧
      info.hostname = hostname ∧ info.port = data.port ∧
      info.ips.ipv4 = data.ipv4 ∧ info.ips.ipv6 = data.ipv6 ∧ info.ips.valid = true := by
  have hacc : accepted data := ⟨ht, by rw [hh]; rfl⟩
  obtain ⟨hostname2, hh2, hadd⟩ := processAddHost_accepted rm data hacc
  have heq : hostname2 = hostname := by
    rw [hh] at hh2; exact (Option.some.inj hh2).symm
  subst heq
  refine ⟨buildRemoteInfo rm data hostname2, by rw [hadd], ?_⟩
  have hp := buildRemoteInfo_authPort rm data hostname2
  have ho := buildRemoteInfo_os rm data hostname2
  obtain ⟨_, _, hname, hport, hips, _⟩ := buildRemoteInfo_fields rm data hostname2
  refine ⟨?_, ?_, ?_, ?_, hname, hport, by rw [hips], by rw [hips], by rw [hips]⟩
  · intro hnone; rw [hp, hnone]
  · intro txt hsome
    rw [hp, hsome]
    refine ⟨rfl, ?_⟩
    intro h0 h1
    show ((atoi txt % 65536).toNat : Int) = atoi txt
    rw [Int.emod_eq_of_lt h0 h1]
    exact Int.toNat_of_nonneg h0
  · intro hnone; rw [ho, hnone]; rfl
  · intro txt hsome; rw [ho, hsome]

/-- C4, at an announcement without `auth-port` and `os`. -/
theorem processAddHost_optional_fields_witness :
    (processAddHost RemoteManager.new
        { name := "alice", ipv4 := "10.0.0.2", ipv6 := "", port := 52000,
          txtRecords := [("hostname", "alice-pc"), ("type", "real")] }
        ).m_hosts.map (fun info => (info.authPort, info.os)) = [(52000, "Linux")] := by
  obtain ⟨info, hl, hp, _, ho, _⟩ := processAddHost_optional_fields RemoteManager.new
    { name := "alice", ipv4 := "10.0.0.2", ipv6 := "", port := 52000,
      txtRecords := [("hostname", "alice-pc"), ("type", "real")] }
    "alice-pc" (by decide) (by decide)
  rw [hl]
  simp [RemoteManager.new, hp (by decide), ho (by decide)]

/-- C5: an accepted announcement makes the roster one longer; the new record is last,
the earlier records keep their places, the new record is not visible and has status
`REGISTERING`, and one worker is started, for that record. -/
theorem processAddHost_appends (rm : RemoteManager) (data : MdnsServiceData)
    (h : accepted data) :
    ∃ info, (processAddHost rm data).m_hosts = rm.m_hosts ++ [info] ∧
      getTotalHostsCount (processAddHost rm data) = getTotalHostsCount rm + 1 ∧
      (processAddHost rm data).m_hosts.getLast? = some info ∧
      (∀ i, i < rm.m_hosts.length →
        (processAddHost rm data).m_hosts.get? i = rm.m_hosts.get? i) ∧
      info.visible = false ∧ info.state = RemoteStatus.REGISTERING ∧
      info.thread = ThreadState.joinable ∧
      (processAddHost rm data).started = rm.started ++ [info.id] := by
  obtain ⟨hostname, _, hadd⟩ := processAddHost_accepted rm data h
  obtain ⟨hvis, hstate, _, _, _, hthread⟩ := buildRemoteInfo_fields rm data hostname
  refine ⟨buildRemoteInfo rm data hostname, by rw [hadd], ?_, ?_, ?_, hvis, hstate, hthread,
    by rw [hadd]⟩
  · rw [hadd]; simp [getTotalHostsCount]
  · rw [hadd]; simp
  · intro i hi
    rw [hadd]
    simp only [List.get?_eq_getElem?]
    exact List.getElem?_append_left hi

/-- C5, at one announcement added to an empty roster. -/
theorem processAddHost_appends_witness :
    (processAddHost RemoteManager.new
        { name := "alice", ipv4 := "10.0.0.2", ipv6 := "", port := 52000,
          txtRecords := [("hostname", "alice-pc"), ("type", "real")] }
        ).m_hosts.map (fun info => (info.visible, info.state)) =
      [(false, RemoteStatus.REGISTERING)] := by
  obtain ⟨info, hl, _, _, _, hv, hs, _⟩ := processAddHost_appends RemoteManager.new
    { name := "alice", ipv4 := "10.0.0.2", ipv6 := "", port := 52000,
      txtRecords := [("hostname", "alice-pc"), ("type", "real")] }
    (by decide)
  rw [hl]
  simp [RemoteManager.new, hv, hs]

/-! ## No de-duplication (C6) -/

theorem stripServiceFromIdent_congr (rm rm2 : RemoteManager)
    (h : rm2.m_srvType = rm.m_srvType) (identStr : String) :
    stripServiceFromIdent rm2 identStr = stripServiceFromIdent rm identStr := by
  simp [stripServiceFromIdent, h]

/-- C6: two accepted announcements whose names normalise to the same id, added one after
the other, give two roster entries at consecutive positions, both with that id; the
total count grows by two. -/
theorem processAddHost_no_dedup (rm : RemoteManager) (d1 d2 : MdnsServiceData)
    (h1 : accepted d1) (h2 : accepted d2)
    (hid : stripServiceFromIdent rm d1.name = stripServiceFromIdent rm d2.name) :
    ∃ r1 r2, (processAddHost (processAddHost rm d1) d2).m_hosts = rm.m_hosts ++ [r1, r2] ∧
      r1.id = stripServiceFromIdent rm d1.name ∧ r2.id = r1.id ∧
      getTotalHostsCount (processAddHost (processAddHost rm d1) d2) =
        getTotalHostsCount rm + 2 := by
  obtain ⟨n1, _, hadd1⟩ := processAddHost_accepted rm d1 h1
  obtain ⟨n2, _, hadd2⟩ := processAddHost_accepted (processAddHost rm d1) d2 h2
  have hsrv : (processAddHost rm d1).m_srvType = rm.m_srvType := by rw [hadd1]
  refine ⟨buildRemoteInfo rm d1 n1, buildRemoteInfo (processAddHost rm d1) d2 n2, ?_, ?_, ?_, ?_⟩
  · rw [hadd2]
    simp only [hadd1, List.append_assoc, List.singleton_append]
  · exact buildRemoteInfo_id rm d1 n1
  · rw [buildRemoteInfo_id, buildRemoteInfo_id, stripServiceFromIdent_congr rm _ hsrv, hid]
  · rw [hadd2]
    simp only [hadd1, getTotalHostsCount, List.length_append, List.length_singleton]

/-- C6, at the same announcement delivered twice. -/
theorem processAddHost_no_dedup_witness :
    (processAddHost (processAddHost
        { m_srvType := "._ws._tcp.local.", m_hosts := [], started := [] }
        { name := "alice._ws._tcp.local.", ipv4 := "10.0.0.2", ipv6 := "", port := 52000,
          txtRecords := [("hostname", "alice-pc"), ("type", "real")] })
        { name := "alice._ws._tcp.local.", ipv4 := "10.0.0.2", ipv6 := "", port := 52000,
          txtRecords := [("hostname", "alice-pc"), ("type", "real")] }
        ).m_hosts.map RemoteInfo.id = ["alice", "alice"] := by
  obtain ⟨r1, r2, hl, h1, h2, _⟩ := processAddHost_no_dedup
    { m_srvType := "._ws._tcp.local.", m_hosts := [], started := [] }
    { name := "alice._ws._tcp.local.", ipv4 := "10.0.0.2", ipv6 := "", port := 52000,
      txtRecords := [("hostname", "alice-pc"), ("type", "real")] }
    { name := "alice._ws._tcp.local.", ipv4 := "10.0.0.2", ipv6 := "", port := 52000,
      txtRecords := [("hostname", "alice-pc"), ("type", "real")] }
    (by decide) (by decide) rfl
  have hs : stripServiceFromIdent
      { m_srvType := "._ws._tcp.local.", m_hosts := [], started := [] }
      "alice._ws._tcp.local." = "alice" := by decide
  rw [hl]
  simp [h2, h1, hs]

/-! ## Roster counts (C7) -/

theorem foldl_visible_count (hosts : List RemoteInfo) (count : Nat) :
    hosts.foldl (fun count info => if info.visible then count + 1 else count) count =
      count + hosts.countP (fun info => info.visible) := by
  induction hosts generalizing count with
  | nil => simp
  | cons info rest ih =>
    rw [List.foldl_cons, ih, List.countP_cons]
    by_cases hv : info.visible = true
    · simp [hv]; omega
    · simp [hv]

/-- C7: `getVisibleHostsCount` is the number of records with `visible` set,
`getTotalHostsCount` is the roster size, and the first never exceeds the second. -/
theorem getVisibleHostsCount_le_total (rm : RemoteManager) :
    getVisibleHostsCount rm = rm.m_hosts.countP (fun info => info.visible) ∧
    getTotalHostsCount rm = rm.m_hosts.length ∧
    getVisibleHostsCount rm ≤ getTotalHostsCount rm := by
  have hc : getVisibleHostsCount rm = rm.m_hosts.countP (fun info => info.visible) := by
    unfold getVisibleHostsCount
    rw [foldl_visible_count, Nat.zero_add]
  refine ⟨hc, rfl, ?_⟩
  rw [hc]
  exact List.countP_le_length _

/-! ## The authentication port (C8) -/

/-- C8, as stated, fails: an accepted announcement with `auth-port` `"0"` puts a record
with `authPort = 0` in the roster. -/
theorem processAddHost_authPort_zero :
    (processAddHost RemoteManager.new
        { name := "alice", ipv4 := "10.0.0.2", ipv6 := "", port := 52000,
          txtRecords := [("auth-port", "0"), ("hostname", "alice-pc"), ("type", "real")] }
        ).m_hosts.map RemoteInfo.authPort = [0] := by
  decide

/-- C8, amended: the record added for an accepted announcement has `authPort` equal to
the main port when `auth-port` is absent, so positive exactly when the main port is;
with `auth-port` present it is `atoi` of the text reduced modulo 65536, so below 65536
and positive exactly when that integer is not a multiple of 65536. -/
theorem processAddHost_authPort_pos_iff (rm : RemoteManager) (data : MdnsServiceData)
    (h : accepted data) :
    ∃ info, (processAddHost rm data).m_hosts = rm.m_hosts ++ [info] ∧
      (data.txtRecords.lookup "auth-port" = none →
        info.authPort = data.port ∧ (0 < info.authPort ↔ 0 < data.port)) ∧
      (∀ txt, data.txtRecords.lookup "auth-port" = some txt →
        info.authPort = toUInt16 (atoi txt) ∧ info.authPort < 65536 ∧
        (0 < info.authPort ↔ atoi txt % 65536 ≠ 0)) := by
  obtain ⟨hostname, _, hadd⟩ := processAddHost_accepted rm data h
  refine ⟨buildRemoteInfo rm data hostname, by rw [hadd], ?_, ?_⟩
  · intro hnone
    have hp := buildRemoteInfo_authPort rm data hostname
    rw [hnone] at hp
    simp only at hp
    rw [hp]
    exact ⟨rfl, Iff.rfl⟩
  · intro txt hsome
    have hp := buildRemoteInfo_authPort rm data hostname
    rw [hsome] at hp
    simp only at hp
    rw [hp]
    have hnn : 0 ≤ atoi txt % 65536 := Int.emod_nonneg _ (by decide)
    have hlt : atoi txt % 65536 < 65536 := Int.emod_lt_of_pos _ (by decide)
    have hcast : ((toUInt16 (atoi txt) : Nat) : Int) = atoi txt % 65536 :=
      Int.toNat_of_nonneg hnn
    refine ⟨rfl, ?_, ?_⟩
    · omega
    · omega

/-- C8 amended, at an announcement with `auth-port` `"52001"`. -/
theorem processAddHost_authPort_pos_iff_witness :
    (processAddHost RemoteManager.new
        { name := "alice", ipv4 := "10.0.0.2", ipv6 := "", port := 52000,
          txtRecords := [("auth-port", "52001"), ("hostname", "alice-pc"), ("type", "real")] }
        ).m_hosts.map RemoteInfo.authPort = [52001] := by
  obtain ⟨info, hl, _, hp⟩ := processAddHost_authPort_pos_iff RemoteManager.new
    { name := "alice", ipv4 := "10.0.0.2", ipv6 := "", port := 52000,
      txtRecords := [("auth-port", "52001"), ("hostname", "alice-pc"), ("type", "real")] }
    (by decide)
  have hv : toUInt16 (atoi "52001") = 52001 := by decide
  rw [hl]
  simp [RemoteManager.new, (hp "52001" (by decide)).1, hv]

/-! ## The service type (C9) -/

/-- C9 at the empty string: `setServiceType("")` evaluates `m_srvType[length() - 1]`
with `length() - 1` wrapped to the largest `size_t`, an index beyond the string, so
the call has undefined behaviour instead of storing `"."`. -/
theorem setServiceType_empty_undefined (rm : RemoteManager) :
    ((0 : Nat) + SIZE_MOD - 1) % SIZE_MOD = 18446744073709551615 ∧
    stringIndex "" 18446744073709551615 = none ∧
    setServiceType rm "" = none := by
  refine ⟨by decide, by decide, ?_⟩
  have h : stringIndex "" (("".length + SIZE_MOD - 1) % SIZE_MOD) = none := by decide
  simp only [setServiceType, h]

/-- For a non-empty service type (shorter than the `size_t` range) `setServiceType`
stores the text itself when it ends with `'.'` and the text followed by `'.'`
otherwise. -/
theorem setServiceType_nonempty (rm : RemoteManager) (serviceType : String)
    (hne : serviceType ≠ "") (hmax : serviceType.length < SIZE_MOD) :
    setServiceType rm serviceType =
      some { rm with m_srvType :=
        if serviceType.data.getLast? = some '.' then serviceType
        else serviceType.push '.' } := by
  rcases serviceType with ⟨l⟩
  have hl : l ≠ [] := fun hnil => hne (by rw [hnil])
  have hpos : 0 < l.length := List.length_pos.mpr hl
  have hmax2 : l.length < SIZE_MOD := hmax
  have hidx : (l.length + SIZE_MOD - 1) % SIZE_MOD = l.length - 1 := by
    have e : l.length + SIZE_MOD - 1 = (l.length - 1) + SIZE_MOD := by omega
    rw [e, Nat.add_mod_right]
    exact Nat.mod_eq_of_lt (by omega)
  have hget : stringIndex ⟨l⟩ (l.length - 1) = l.getLast? := by
    have hlt : l.length - 1 < (String.mk l).length := by
      show l.length - 1 < l.length
      omega
    simp only [stringIndex, hlt, if_true, List.get?_eq_getElem?]
    exact (List.getLast?_eq_getElem? l).symm
  obtain ⟨c, hc⟩ : ∃ c, l.getLast? = some c := by
    cases hlast : l.getLast? with
    | none => exact absurd (List.getLast?_eq_none_iff.mp hlast) hl
    | some c => exact ⟨c, rfl⟩
  unfold setServiceType
  simp only [String.length, hidx, hget, hc]
  by_cases hdot : c = '.'
  · simp [hdot]
  · simp [hdot]

/-! ## Shutdown (C10) -/

theorem stopSignal_hosts (i : Nat) (hosts : List RemoteInfo) :
    (stopSignal i hosts).1 = hosts.map (fun info => { info with stopping := true }) := by
  induction hosts generalizing i with
  | nil => rfl
  | cons info rest ih => simp [stopSignal, ih]

theorem stopSignal_block (hosts : List RemoteInfo) (i k : Nat) (hik : i ≤ k)
    (hk : k < i + hosts.length) :
    [Event.lock k, Event.setStopping k, Event.notifyAll k, Event.unlock k] <:+:
      (stopSignal i hosts).2 := by
  induction hosts generalizing i with
  | nil => simp at hk; omega
  | cons info rest ih =>
    simp only [stopSignal]
    by_cases hki : k = i
    · subst hki
      exact ⟨[], (stopSignal (k + 1) rest).2, rfl⟩
    · have hrest : [Event.lock k, Event.setStopping k, Event.notifyAll k, Event.unlock k] <:+:
          (stopSignal (i + 1) rest).2 :=
        ih (i + 1) (by omega) (by simp only [List.length_cons] at hk; omega)
      obtain ⟨a, b, hab⟩ := hrest
      exact ⟨signalEvents i ++ a, b, by rw [← hab]; simp only [List.append_assoc]⟩

theorem stopSignal_trace_eq (hosts : List RemoteInfo) (i : Nat) :
    (stopSignal i hosts).2 =
      (List.range' i hosts.length).flatMap (fun k =>
        [Event.lock k, Event.setStopping k, Event.notifyAll k, Event.unlock k]) := by
  induction hosts generalizing i with
  | nil => rfl
  | cons info rest ih =>
    simp only [stopSignal, List.length_cons, List.range'_succ, List.flatMap_cons, ih]
    rfl

theorem stopJoin_trace_eq (hosts : List RemoteInfo) (i : Nat) :
    ∃ k, k ≤ hosts.length ∧ ((stopJoin i hosts).2.2 = true → k = hosts.length) ∧
      (stopJoin i hosts).2.1 = (List.range' i k).map Event.join := by
  induction hosts generalizing i with
  | nil => exact ⟨0, Nat.le_refl _, fun _ => rfl, rfl⟩
  | cons info rest ih =>
    obtain ⟨k, hk, hret, htr⟩ := ih (i + 1)
    unfold stopJoin
    split_ifs with hj
    · refine ⟨k + 1, by simp only [List.length_cons]; omega, ?_, ?_⟩
      · intro h
        simp only [List.length_cons]
        rw [hret h]
      · simp only [List.range'_succ, List.map_cons, htr]
    · exact ⟨1, by simp only [List.length_cons]; omega, fun h => absurd h (by simp), rfl⟩

theorem stopSignal_lock_released (hosts : List RemoteInfo) (i0 i : Nat)
    (p1 p2 : List Event) (h : (stopSignal i0 hosts).2 = p1 ++ Event.lock i :: p2) :
    Event.unlock i ∈ p2 := by
  induction hosts generalizing i0 p1 with
  | nil =>
    simp only [stopSignal] at h
    exact absurd h (by simp)
  | cons info rest ih =>
    simp only [stopSignal, signalEvents] at h
    rcases p1 with _ | ⟨a, _ | ⟨b, _ | ⟨c, _ | ⟨d, p1r⟩⟩⟩⟩
    · simp only [List.nil_append, List.cons_append, List.cons.injEq, Event.lock.injEq] at h
      rw [← h.2, h.1]
      simp
    · simp at h
    · simp at h
    · simp at h
    · simp only [List.cons_append, List.nil_append, List.cons.injEq] at h
      exact ih (i0 + 1) p1r h.2.2.2.2

theorem stopSignal_no_join (hosts : List RemoteInfo) (i j : Nat) :
    Event.join j ∉ (stopSignal i hosts).2 := by
  induction hosts generalizing i with
  | nil => simp [stopSignal]
  | cons info rest ih =>
    simp only [stopSignal, List.mem_append, not_or]
    exact ⟨by simp [signalEvents], ih (i + 1)⟩

theorem heldRecordLocks_append (held : List Nat) (a b : List Event) :
    heldRecordLocks held (a ++ b) = heldRecordLocks (heldRecordLocks held a) b := by
  induction a generalizing held with
  | nil => rfl
  | cons e rest ih => cases e <;> simp [heldRecordLocks, ih]

theorem heldRecordLocks_stopSignal (hosts : List RemoteInfo) (i : Nat) :
    heldRecordLocks [] (stopSignal i hosts).2 = [] := by
  induction hosts generalizing i with
  | nil => rfl
  | cons info rest ih =>
    simp only [stopSignal]
    rw [heldRecordLocks_append]
    have hblock : heldRecordLocks [] (signalEvents i) = [] := by
      simp [signalEvents, heldRecordLocks]
    rw [hblock]
    exact ih (i + 1)

theorem stopJoin_only_joins (hosts : List RemoteInfo) (i : Nat) (e : Event)
    (he : e ∈ (stopJoin i hosts).2.1) : ∃ j, e = Event.join j := by
  induction hosts generalizing i with
  | nil => simp [stopJoin] at he
  | cons info rest ih =>
    unfold stopJoin at he
    split_ifs at he with hj
    · rcases List.mem_cons.mp he with h | h
      · exact ⟨i, h⟩
      · exact ih (i + 1) h
    · exact ⟨i, by simpa using he⟩

theorem heldRecordLocks_joins (held : List Nat) (events : List Event)
    (h : ∀ e ∈ events, ∃ j, e = Event.join j) : heldRecordLocks held events = held := by
  induction events with
  | nil => rfl
  | cons e rest ih =>
    obtain ⟨j, hj⟩ := h e (List.mem_cons_self _ _)
    subst hj
    simp only [heldRecordLocks]
    exact ih (fun e he => h e (List.mem_cons_of_mem _ he))

theorem stopJoin_length (hosts : List RemoteInfo) (i : Nat) :
    (stopJoin i hosts).1.length = hosts.length := by
  induction hosts generalizing i with
  | nil => rfl
  | cons info rest ih =>
    unfold stopJoin
    split_ifs
    · simp [ih]
    · rfl

theorem stopJoin_stopping (hosts : List RemoteInfo) (i : Nat)
    (h : ∀ info ∈ hosts, info.stopping = true) :
    ∀ info ∈ (stopJoin i hosts).1, info.stopping = true := by
  induction hosts generalizing i with
  | nil => intro info hin; simp [stopJoin] at hin
  | cons r rest ih =>
    intro info hin
    unfold stopJoin at hin
    split_ifs at hin
    · rcases List.mem_cons.mp hin with heq | hmem
      · rw [heq]; exact h r (List.mem_cons_self _ _)
      · exact ih (i + 1) (fun x hx => h x (List.mem_cons_of_mem _ hx)) info hmem
    · exact h info hin

theorem stopJoin_returned (hosts : List RemoteInfo) (i : Nat)
    (h : (stopJoin i hosts).2.2 = true) :
    (∀ info ∈ (stopJoin i hosts).1, info.thread = ThreadState.joined) ∧
    ∀ k, i ≤ k → k < i + hosts.length → Event.join k ∈ (stopJoin i hosts).2.1 := by
  induction hosts generalizing i with
  | nil =>
    refine ⟨fun info hin => by simp [stopJoin] at hin, fun k h1 h2 => ?_⟩
    simp at h2; omega
  | cons r rest ih =>
    unfold stopJoin at h ⊢
    split_ifs at h ⊢ with hj
    · obtain ⟨ih1, ih2⟩ := ih (i + 1) h
      refine ⟨?_, ?_⟩
      · intro info hin
        rcases List.mem_cons.mp hin with heq | hmem
        · rw [heq]
        · exact ih1 info hmem
      · intro k h1 h2
        by_cases hki : k = i
        · subst hki; exact List.mem_cons_self _ _
        · exact List.mem_cons_of_mem _
            (ih2 k (by omega) (by simp only [List.length_cons] at h2; omega))

theorem stopJoin_all_joinable (hosts : List RemoteInfo) (i : Nat)
    (h : ∀ info ∈ hosts, info.thread = ThreadState.joinable) :
    (stopJoin i hosts).2.2 = true := by
  induction hosts generalizing i with
  | nil => rfl
  | cons r rest ih =>
    unfold stopJoin
    rw [if_pos (h r (List.mem_cons_self _ _))]
    exact ih (i + 1) (fun x hx => h x (List.mem_cons_of_mem _ hx))

theorem append_eq_split {α : Type} (a b pre post : List α) (x : α)
    (h : a ++ b = pre ++ x :: post) :
    (∃ mid, pre = a ++ mid ∧ b = mid ++ x :: post) ∨
    (∃ mid, a = pre ++ x :: mid ∧ post = mid ++ b) := by
  rcases List.append_eq_append_iff.mp h with ⟨m, hm, hb⟩ | ⟨c, hc, hd⟩
  · exact Or.inl ⟨m, hm, hb⟩
  · cases c with
    | nil =>
      refine Or.inl ⟨[], by simpa using hc.symm, by simpa using hd.symm⟩
    | cons y c2 =>
      simp only [List.cons_append, List.cons.injEq] at hd
      exact Or.inr ⟨c2, by rw [hc, hd.1], hd.2⟩

theorem append_split_at (front back pre post : List Event) (x : Event)
    (h : front ++ back = pre ++ x :: post) (hx : x ∉ front) :
    ∃ mid, pre = front ++ mid ∧ back = mid ++ x :: post := by
  rcases List.append_eq_append_iff.mp h with ⟨a, ha, hb⟩ | ⟨c, hc, hd⟩
  · exact ⟨a, ha, hb⟩
  · cases c with
    | nil => exact ⟨[], by simpa using hc.symm, by simpa using hd.symm⟩
    | cons y c2 =>
      simp only [List.cons_append, List.cons.injEq] at hd
      exact absurd (by rw [hc, hd.1]; simp) hx

/-- C10: `stop` is two-phase for every roster. The trace is the roster lock, then for
every record in order its own lock, the flag set, the notification and the unlock,
then the joins in order, then the roster unlock. Before every `join` every record's
lock, set flag, notify, unlock block is complete, every record lock taken has been
released and none is held. Afterwards every record has its flag set; when `stop`
returns normally every worker has been joined; and it does return when every worker
is joinable. -/
theorem stop_two_phase (rm : RemoteManager) :
    (stop rm).rm.m_hosts.length = rm.m_hosts.length ∧
    (∀ i, i < rm.m_hosts.length →
      [Event.lock i, Event.setStopping i, Event.notifyAll i, Event.unlock i] <:+:
        (stop rm).trace) ∧
    (∀ pre j post, (stop rm).trace = pre ++ Event.join j :: post →
      (∀ i, i < rm.m_hosts.length →
        [Event.lock i, Event.setStopping i, Event.notifyAll i, Event.unlock i] <:+: pre) ∧
      heldRecordLocks [] pre = [] ∧
      (∀ i p1 p2, pre = p1 ++ Event.lock i :: p2 → Event.unlock i ∈ p2)) ∧
    (∀ info ∈ (stop rm).rm.m_hosts, info.stopping = true) ∧
    ((stop rm).returned = true →
      (∀ info ∈ (stop rm).rm.m_hosts, info.thread = ThreadState.joined) ∧
      ∀ i, i < rm.m_hosts.length → Event.join i ∈ (stop rm).trace) ∧
    ((∀ info ∈ rm.m_hosts, info.thread = ThreadState.joinable) →
      (stop rm).returned = true) ∧
    (∃ k, k ≤ rm.m_hosts.length ∧ ((stop rm).returned = true → k = rm.m_hosts.length) ∧
      (stop rm).trace =
        [Event.lockRoster] ++
        (List.range rm.m_hosts.length).flatMap (fun i =>
          [Event.lock i, Event.setStopping i, Event.notifyAll i, Event.unlock i]) ++
        (List.range k).map Event.join ++ [Event.unlockRoster]) := by
  have hsig : ∀ i, i < rm.m_hosts.length →
      [Event.lock i, Event.setStopping i, Event.notifyAll i, Event.unlock i] <:+:
        (stopSignal 0 rm.m_hosts).2 :=
    fun i hi => stopSignal_block rm.m_hosts 0 i (Nat.zero_le _) (by omega)
  have hlen1 : (stopSignal 0 rm.m_hosts).1.length = rm.m_hosts.length := by
    rw [stopSignal_hosts, List.length_map]
  have hflag : ∀ info ∈ (stopSignal 0 rm.m_hosts).1, info.stopping = true := by
    intro info hin
    rw [stopSignal_hosts] at hin
    obtain ⟨r, _, hr⟩ := List.mem_map.mp hin
    rw [← hr]
  refine ⟨?_, ?_, ?_, ?_, ?_, ?_, ?_⟩
  · show (stopJoin 0 (stopSignal 0 rm.m_hosts).1).1.length = rm.m_hosts.length
    rw [stopJoin_length, hlen1]
  · intro i hi
    obtain ⟨a, b, hab⟩ := hsig i hi
    refine ⟨Event.lockRoster :: a,
      b ++ (stopJoin 0 (stopSignal 0 rm.m_hosts).1).2.1 ++ [Event.unlockRoster], ?_⟩
    show _ = [Event.lockRoster] ++ (stopSignal 0 rm.m_hosts).2 ++
      (stopJoin 0 (stopSignal 0 rm.m_hosts).1).2.1 ++ [Event.unlockRoster]
    rw [← hab]
    simp only [List.append_assoc, List.cons_append, List.nil_append]
  · intro pre j post htrace
    have htrace2 : ([Event.lockRoster] ++ (stopSignal 0 rm.m_hosts).2) ++
        ((stopJoin 0 (stopSignal 0 rm.m_hosts).1).2.1 ++ [Event.unlockRoster]) =
        pre ++ Event.join j :: post := by
      rw [← htrace]
      simp only [stop, List.append_assoc]
    have hnotin : Event.join j ∉ [Event.lockRoster] ++ (stopSignal 0 rm.m_hosts).2 := by
      simp only [List.mem_append, not_or]
      exact ⟨by simp, stopSignal_no_join _ _ _⟩
    obtain ⟨mid, hpre, hback⟩ := append_split_at _ _ _ _ _ htrace2 hnotin
    have hmid : ∀ e ∈ mid, ∃ k, e = Event.join k := by
      rcases List.append_eq_append_iff.mp hback with ⟨a, _, hb⟩ | ⟨c, hc, _⟩
      · exfalso
        cases a with
        | nil => simp at hb
        | cons y a2 =>
          simp only [List.cons_append, List.cons.injEq] at hb
          have hnil := hb.2
          simp at hnil
      · intro e he
        exact stopJoin_only_joins _ 0 e (by rw [hc]; exact List.mem_append_left _ he)
    refine ⟨?_, ?_, ?_⟩
    · intro i hi
      obtain ⟨a, b, hab⟩ := hsig i hi
      refine ⟨Event.lockRoster :: a, b ++ mid, ?_⟩
      rw [hpre, ← hab]
      simp only [List.append_assoc, List.cons_append, List.nil_append]
    · rw [hpre, heldRecordLocks_append, heldRecordLocks_append]
      have h0 : heldRecordLocks [] [Event.lockRoster] = [] := rfl
      rw [h0, heldRecordLocks_stopSignal, heldRecordLocks_joins [] mid hmid]
    · intro i p1 p2 hsplit
      have hsplit2 : ([Event.lockRoster] ++ (stopSignal 0 rm.m_hosts).2) ++ mid =
          p1 ++ Event.lock i :: p2 := by rw [← hpre, hsplit]
      rcases append_eq_split _ _ p1 p2 (Event.lock i) hsplit2 with
        ⟨m, _, hm⟩ | ⟨m, hm, hp2⟩
      · obtain ⟨k, hk⟩ := hmid (Event.lock i) (by rw [hm]; simp)
        exact absurd hk (by simp)
      · rw [hp2]
        apply List.mem_append_left
        cases p1 with
        | nil => simp at hm
        | cons y p1r =>
          simp only [List.cons_append, List.nil_append, List.cons.injEq] at hm
          exact stopSignal_lock_released rm.m_hosts 0 i p1r m hm.2
  · exact stopJoin_stopping _ 0 hflag
  · intro hret
    obtain ⟨h1, h2⟩ := stopJoin_returned (stopSignal 0 rm.m_hosts).1 0 hret
    refine ⟨h1, ?_⟩
    intro i hi
    have hj := h2 i (Nat.zero_le _) (by omega)
    show Event.join i ∈ [Event.lockRoster] ++ (stopSignal 0 rm.m_hosts).2 ++
      (stopJoin 0 (stopSignal 0 rm.m_hosts).1).2.1 ++ [Event.unlockRoster]
    simp only [List.mem_append]
    exact Or.inl (Or.inr hj)
  · intro hall
    apply stopJoin_all_joinable
    intro info hin
    rw [stopSignal_hosts] at hin
    obtain ⟨r, hr, hri⟩ := List.mem_map.mp hin
    rw [← hri]
    exact hall r hr
  · obtain ⟨k, hk, hret, htr⟩ := stopJoin_trace_eq (stopSignal 0 rm.m_hosts).1 0
    refine ⟨k, by rw [← hlen1]; exact hk, fun h => by rw [← hlen1]; exact hret h, ?_⟩
    show [Event.lockRoster] ++ (stopSignal 0 rm.m_hosts).2 ++
      (stopJoin 0 (stopSignal 0 rm.m_hosts).1).2.1 ++ [Event.unlockRoster] = _
    rw [stopSignal_trace_eq, htr, List.range_eq_range', List.range_eq_range']

/-! ## The registration worker (C11 to C15) -/

theorem destination_stopping (info : RemoteInfo) (b : Bool) :
    destination { info with stopping := b } = destination info := rfl

theorem attemptLoop_limit (prc : String → MdnsIpPair → String → Bool)
    (tryCount : Nat) (info : RemoteInfo) (rounds : List Round) (h : ¬ tryCount < 3) :
    attemptLoop prc tryCount info rounds =
      { exit := LoopExit.retryLimit, serviceInfo := info, trace := [], rest := rounds } := by
  cases rounds with
  | nil => simp [attemptLoop, h]
  | cons r rest => simp [attemptLoop, h]

theorem attemptLoop_nil (prc : String → MdnsIpPair → String → Bool)
    (tryCount : Nat) (info : RemoteInfo) (h : tryCount < 3) :
    attemptLoop prc tryCount info [] =
      { exit := LoopExit.scriptEnded, serviceInfo := info, trace := [], rest := [] } := by
  simp [attemptLoop, h]

theorem attemptLoop_timeout (prc : String → MdnsIpPair → String → Bool)
    (tryCount : Nat) (info : RemoteInfo) (r : Round) (rest : List Round)
    (h : tryCount < 3) (hlen : r.replyBuf.length = 0) :
    attemptLoop prc tryCount info (r :: rest) =
      { attemptLoop prc (tryCount + 1)
          { info with stopping := info.stopping || r.stopSet } rest with
        trace := roundEvents r ++
          (attemptLoop prc (tryCount + 1)
            { info with stopping := info.stopping || r.stopSet } rest).trace } := by
  simp [attemptLoop, h, hlen]

theorem attemptLoop_reply (prc : String → MdnsIpPair → String → Bool)
    (tryCount : Nat) (info : RemoteInfo) (r : Round) (rest : List Round)
    (h : tryCount < 3) (hlen : r.replyBuf.length ≠ 0) (haddr : r.replyAddr = destination info) :
    attemptLoop prc tryCount info (r :: rest) =
      { exit := LoopExit.returned (prc info.hostname info.ips r.replyBuf),
        serviceInfo := { info with stopping := info.stopping || r.stopSet },
        trace := roundEvents r ++ [WorkerEvent.processRemoteCert r.replyBuf],
        rest := rest } := by
  simp [attemptLoop, h, hlen, haddr]

theorem attemptLoop_stray (prc : String → MdnsIpPair → String → Bool)
    (tryCount : Nat) (info : RemoteInfo) (r : Round) (rest : List Round)
    (h : tryCount < 3) (hlen : r.replyBuf.length ≠ 0) (haddr : r.replyAddr ≠ destination info) :
    attemptLoop prc tryCount info (r :: rest) =
      { attemptLoop prc tryCount
          { info with stopping := info.stopping || r.stopSet } rest with
        trace := roundEvents r ++
          (attemptLoop prc tryCount
            { info with stopping := info.stopping || r.stopSet } rest).trace } := by
  simp [attemptLoop, h, hlen, haddr]

theorem mem_roundEvents (r : Round) (e : WorkerEvent) (he : e ∈ roundEvents r) :
    e = WorkerEvent.sendTo ∨ (e = WorkerEvent.stopRequested ∧ r.stopSet = true) := by
  unfold roundEvents at he
  cases hs : r.stopSet
  · simp [hs] at he; exact Or.inl he
  · simp [hs] at he
    rcases he with h | h
    · exact Or.inl h
    · exact Or.inr ⟨h, rfl⟩

theorem stopRequested_mem_roundEvents (r : Round) :
    WorkerEvent.stopRequested ∈ roundEvents r ↔ r.stopSet = true := by
  unfold roundEvents
  cases hs : r.stopSet <;> simp

/-- Case analysis on one round of the loop, for proofs by induction on the script. -/
theorem attemptLoop_cases (prc : String → MdnsIpPair → String → Bool)
    (tryCount : Nat) (info : RemoteInfo) (r : Round) (rest : List Round) :
    (¬ tryCount < 3 ∧ attemptLoop prc tryCount info (r :: rest) =
      { exit := LoopExit.retryLimit, serviceInfo := info, trace := [], rest := r :: rest }) ∨
    (tryCount < 3 ∧ r.replyBuf.length ≠ 0 ∧ r.replyAddr = destination info ∧
      attemptLoop prc tryCount info (r :: rest) =
        { exit := LoopExit.returned (prc info.hostname info.ips r.replyBuf),
          serviceInfo := { info with stopping := info.stopping || r.stopSet },
          trace := roundEvents r ++ [WorkerEvent.processRemoteCert r.replyBuf],
          rest := rest }) ∨
    (tryCount < 3 ∧ ∃ next, (next = tryCount + 1 ∧ r.replyBuf.length = 0 ∨
        next = tryCount ∧ r.replyBuf.length ≠ 0 ∧ r.replyAddr ≠ destination info) ∧
      attemptLoop prc tryCount info (r :: rest) =
        { attemptLoop prc next { info with stopping := info.stopping || r.stopSet } rest with
          trace := roundEvents r ++
            (attemptLoop prc next
              { info with stopping := info.stopping || r.stopSet } rest).trace }) := by
  by_cases h : tryCount < 3
  · by_cases hlen : r.replyBuf.length = 0
    · exact Or.inr (Or.inr ⟨h, tryCount + 1, Or.inl ⟨rfl, hlen⟩,
        attemptLoop_timeout prc tryCount info r rest h hlen⟩)
    · by_cases haddr : r.replyAddr = destination info
      · exact Or.inr (Or.inl ⟨h, hlen, haddr, attemptLoop_reply prc tryCount info r rest h hlen haddr⟩)
      · exact Or.inr (Or.inr ⟨h, tryCount, Or.inr ⟨rfl, hlen, haddr⟩,
          attemptLoop_stray prc tryCount info r rest h hlen haddr⟩)
  · exact Or.inl ⟨h, attemptLoop_limit prc tryCount info (r :: rest) h⟩

theorem attemptLoop_serviceInfo (prc : String → MdnsIpPair → String → Bool)
    (rounds : List Round) (tryCount : Nat) (info : RemoteInfo) :
    (attemptLoop prc tryCount info rounds).serviceInfo =
      { info with stopping := (attemptLoop prc tryCount info rounds).serviceInfo.stopping } := by
  induction rounds generalizing tryCount info with
  | nil => unfold attemptLoop; split_ifs <;> rfl
  | cons r rest ih =>
    rcases attemptLoop_cases prc tryCount info r rest with
      ⟨_, he⟩ | ⟨_, _, _, he⟩ | ⟨_, next, _, he⟩
    · rw [he]
    · rw [he]
    · rw [he]
      simp only []
      rw [ih]

theorem attemptLoop_stopping (prc : String → MdnsIpPair → String → Bool)
    (rounds : List Round) (tryCount : Nat) (info : RemoteInfo) :
    (attemptLoop prc tryCount info rounds).serviceInfo.stopping =
      (info.stopping ||
        decide (WorkerEvent.stopRequested ∈ (attemptLoop prc tryCount info rounds).trace)) := by
  induction rounds generalizing tryCount info with
  | nil => unfold attemptLoop; split_ifs <;> simp
  | cons r rest ih =>
    rcases attemptLoop_cases prc tryCount info r rest with
      ⟨_, he⟩ | ⟨_, _, _, he⟩ | ⟨_, next, _, he⟩
    · rw [he]; simp
    · rw [he]
      simp only [List.mem_append, List.mem_singleton, stopRequested_mem_roundEvents]
      cases r.stopSet <;> simp
    · rw [he]
      simp only []
      rw [ih]
      simp only [List.mem_append, stopRequested_mem_roundEvents]
      cases r.stopSet <;> simp

theorem attemptLoop_trace_events (prc : String → MdnsIpPair → String → Bool)
    (rounds : List Round) (tryCount : Nat) (info : RemoteInfo) (e : WorkerEvent)
    (he : e ∈ (attemptLoop prc tryCount info rounds).trace) :
    e = WorkerEvent.sendTo ∨ e = WorkerEvent.stopRequested ∨
      ∃ msg, e = WorkerEvent.processRemoteCert msg := by
  induction rounds generalizing tryCount info with
  | nil => unfold attemptLoop at he; split_ifs at he <;> simp at he
  | cons r rest ih =>
    rcases attemptLoop_cases prc tryCount info r rest with
      ⟨_, heq⟩ | ⟨_, _, _, heq⟩ | ⟨_, next, _, heq⟩
    · rw [heq] at he; simp at he
    · rw [heq] at he
      simp only [List.mem_append, List.mem_singleton] at he
      rcases he with h | h
      · rcases mem_roundEvents r e h with h2 | h2
        · exact Or.inl h2
        · exact Or.inr (Or.inl h2.1)
      · exact Or.inr (Or.inr ⟨_, h⟩)
    · rw [heq] at he
      simp only [List.mem_append] at he
      rcases he with h | h
      · rcases mem_roundEvents r e h with h2 | h2
        · exact Or.inl h2
        · exact Or.inr (Or.inl h2.1)
      · exact ih _ _ h

theorem attemptLoop_cert (prc : String → MdnsIpPair → String → Bool)
    (rounds : List Round) (tryCount : Nat) (info : RemoteInfo) (msg : String)
    (he : WorkerEvent.processRemoteCert msg ∈ (attemptLoop prc tryCount info rounds).trace) :
    (attemptLoop prc tryCount info rounds).exit =
      LoopExit.returned (prc info.hostname info.ips msg) := by
  induction rounds generalizing tryCount info with
  | nil => unfold attemptLoop at he; split_ifs at he <;> simp at he
  | cons r rest ih =>
    rcases attemptLoop_cases prc tryCount info r rest with
      ⟨_, heq⟩ | ⟨_, _, _, heq⟩ | ⟨_, next, _, heq⟩
    · rw [heq] at he; simp at he
    · rw [heq] at he ⊢
      simp only [List.mem_append, List.mem_singleton] at he
      rcases he with h | h
      · rcases mem_roundEvents r _ h with h2 | h2
        · exact absurd h2 (by simp)
        · exact absurd h2.1 (by simp)
      · rw [WorkerEvent.processRemoteCert.injEq] at h
        rw [h]
    · rw [heq] at he ⊢
      simp only [List.mem_append] at he
      rcases he with h | h
      · rcases mem_roundEvents r _ h with h2 | h2
        · exact absurd h2 (by simp)
        · exact absurd h2.1 (by simp)
      · exact ih _ _ h

theorem doRegistrationV1_returned (prc : String → MdnsIpPair → String → Bool)
    (waits : List Bool) (info : RemoteInfo) (rounds : List Round) (value : Bool)
    (h : (attemptLoop prc 0 info rounds).exit = LoopExit.returned value) :
    doRegistrationV1 prc waits info rounds =
      { result := some value, serviceInfo := (attemptLoop prc 0 info rounds).serviceInfo,
        trace := (attemptLoop prc 0 info rounds).trace } := by
  cases waits <;> simp [doRegistrationV1, h]

theorem doRegistrationV1_scriptEnded (prc : String → MdnsIpPair → String → Bool)
    (waits : List Bool) (info : RemoteInfo) (rounds : List Round)
    (h : (attemptLoop prc 0 info rounds).exit = LoopExit.scriptEnded) :
    doRegistrationV1 prc waits info rounds =
      { result := none, serviceInfo := (attemptLoop prc 0 info rounds).serviceInfo,
        trace := (attemptLoop prc 0 info rounds).trace } := by
  cases waits <;> simp [doRegistrationV1, h]

theorem doRegistrationV1_cancelled (prc : String → MdnsIpPair → String → Bool)
    (waits : List Bool) (info : RemoteInfo) (rounds : List Round)
    (h : (attemptLoop prc 0 info rounds).exit = LoopExit.retryLimit)
    (hs : (attemptLoop prc 0 info rounds).serviceInfo.stopping = true) :
    doRegistrationV1 prc waits info rounds =
      { result := some false, serviceInfo := (attemptLoop prc 0 info rounds).serviceInfo,
        trace := (attemptLoop prc 0 info rounds).trace ++
          [WorkerEvent.lock, WorkerEvent.unlock] } := by
  cases waits <;> simp [doRegistrationV1, h, hs]

theorem doRegistrationV1_no_wait_left (prc : String → MdnsIpPair → String → Bool)
    (info : RemoteInfo) (rounds : List Round)
    (h : (attemptLoop prc 0 info rounds).exit = LoopExit.retryLimit)
    (hs : (attemptLoop prc 0 info rounds).serviceInfo.stopping = false) :
    doRegistrationV1 prc [] info rounds =
      { result := none, serviceInfo := (attemptLoop prc 0 info rounds).serviceInfo,
        trace := (attemptLoop prc 0 info rounds).trace ++
          [WorkerEvent.lock, WorkerEvent.waitFor 30] } := by
  simp [doRegistrationV1, h, hs]

theorem doRegistrationV1_woken_stopped (prc : String → MdnsIpPair → String → Bool)
    (waits : List Bool) (info : RemoteInfo) (rounds : List Round)
    (h : (attemptLoop prc 0 info rounds).exit = LoopExit.retryLimit)
    (hs : (attemptLoop prc 0 info rounds).serviceInfo.stopping = false) :
    doRegistrationV1 prc (true :: waits) info rounds =
      { result := some false,
        serviceInfo := { (attemptLoop prc 0 info rounds).serviceInfo with stopping := true },
        trace := (attemptLoop prc 0 info rounds).trace ++
          [WorkerEvent.lock, WorkerEvent.waitFor 30, WorkerEvent.stopRequested,
            WorkerEvent.unlock] } := by
  simp [doRegistrationV1, h, hs]

theorem doRegistrationV1_next_cycle (prc : String → MdnsIpPair → String → Bool)
    (waits : List Bool) (info : RemoteInfo) (rounds : List Round)
    (h : (attemptLoop prc 0 info rounds).exit = LoopExit.retryLimit)
    (hs : (attemptLoop prc 0 info rounds).serviceInfo.stopping = false) :
    doRegistrationV1 prc (false :: waits) info rounds =
      { doRegistrationV1 prc waits (attemptLoop prc 0 info rounds).serviceInfo
          (attemptLoop prc 0 info rounds).rest with
        trace := (attemptLoop prc 0 info rounds).trace ++
          [WorkerEvent.lock, WorkerEvent.waitFor 30, WorkerEvent.unlock] ++
          (doRegistrationV1 prc waits (attemptLoop prc 0 info rounds).serviceInfo
            (attemptLoop prc 0 info rounds).rest).trace } := by
  have hinfo : { (attemptLoop prc 0 info rounds).serviceInfo with stopping := false } =
      (attemptLoop prc 0 info rounds).serviceInfo := by
    rw [← hs]
  simp [doRegistrationV1, h, hs, hinfo]

/-- Case analysis on the first cycle of `doRegistrationV1`. -/
theorem doRegistrationV1_cases (prc : String → MdnsIpPair → String → Bool)
    (waits : List Bool) (info : RemoteInfo) (rounds : List Round) :
    (∃ value, (attemptLoop prc 0 info rounds).exit = LoopExit.returned value ∧
      doRegistrationV1 prc waits info rounds =
        { result := some value, serviceInfo := (attemptLoop prc 0 info rounds).serviceInfo,
          trace := (attemptLoop prc 0 info rounds).trace }) ∨
    ((attemptLoop prc 0 info rounds).exit = LoopExit.scriptEnded ∧
      doRegistrationV1 prc waits info rounds =
        { result := none, serviceInfo := (attemptLoop prc 0 info rounds).serviceInfo,
          trace := (attemptLoop prc 0 info rounds).trace }) ∨
    ((attemptLoop prc 0 info rounds).exit = LoopExit.retryLimit ∧
      (attemptLoop prc 0 info rounds).serviceInfo.stopping = true ∧
      doRegistrationV1 prc waits info rounds =
        { result := some false, serviceInfo := (attemptLoop prc 0 info rounds).serviceInfo,
          trace := (attemptLoop prc 0 info rounds).trace ++
            [WorkerEvent.lock, WorkerEvent.unlock] }) ∨
    ((attemptLoop prc 0 info rounds).exit = LoopExit.retryLimit ∧
      (attemptLoop prc 0 info rounds).serviceInfo.stopping = false ∧ waits = [] ∧
      doRegistrationV1 prc waits info rounds =
        { result := none, serviceInfo := (attemptLoop prc 0 info rounds).serviceInfo,
          trace := (attemptLoop prc 0 info rounds).trace ++
            [WorkerEvent.lock, WorkerEvent.waitFor 30] }) ∨
    (∃ ws, (attemptLoop prc 0 info rounds).exit = LoopExit.retryLimit ∧
      (attemptLoop prc 0 info rounds).serviceInfo.stopping = false ∧ waits = true :: ws ∧
      doRegistrationV1 prc waits info rounds =
        { result := some false,
          serviceInfo := { (attemptLoop prc 0 info rounds).serviceInfo with stopping := true },
          trace := (attemptLoop prc 0 info rounds).trace ++
            [WorkerEvent.lock, WorkerEvent.waitFor 30, WorkerEvent.stopRequested,
              WorkerEvent.unlock] }) ∨
    (∃ ws, (attemptLoop prc 0 info rounds).exit = LoopExit.retryLimit ∧
      (attemptLoop prc 0 info rounds).serviceInfo.stopping = false ∧ waits = false :: ws ∧
      doRegistrationV1 prc waits info rounds =
        { doRegistrationV1 prc ws (attemptLoop prc 0 info rounds).serviceInfo
            (attemptLoop prc 0 info rounds).rest with
          trace := (attemptLoop prc 0 info rounds).trace ++
            [WorkerEvent.lock, WorkerEvent.waitFor 30, WorkerEvent.unlock] ++
            (doRegistrationV1 prc ws (attemptLoop prc 0 info rounds).serviceInfo
              (attemptLoop prc 0 info rounds).rest).trace }) := by
  cases hexit : (attemptLoop prc 0 info rounds).exit with
  | returned value =>
    exact Or.inl ⟨value, rfl, doRegistrationV1_returned prc waits info rounds value hexit⟩
  | scriptEnded =>
    exact Or.inr (Or.inl ⟨rfl, doRegistrationV1_scriptEnded prc waits info rounds hexit⟩)
  | retryLimit =>
    cases hs : (attemptLoop prc 0 info rounds).serviceInfo.stopping with
    | true =>
      exact Or.inr (Or.inr (Or.inl
        ⟨rfl, rfl, doRegistrationV1_cancelled prc waits info rounds hexit hs⟩))
    | false =>
      cases waits with
      | nil =>
        exact Or.inr (Or.inr (Or.inr (Or.inl
          ⟨rfl, rfl, rfl, doRegistrationV1_no_wait_left prc info rounds hexit hs⟩)))
      | cons w ws =>
        cases w with
        | true =>
          exact Or.inr (Or.inr (Or.inr (Or.inr (Or.inl
            ⟨ws, rfl, rfl, rfl, doRegistrationV1_woken_stopped prc ws info rounds hexit hs⟩))))
        | false =>
          exact Or.inr (Or.inr (Or.inr (Or.inr (Or.inr
            ⟨ws, rfl, rfl, rfl, doRegistrationV1_next_cycle prc ws info rounds hexit hs⟩))))

theorem doRegistrationV1_serviceInfo (prc : String → MdnsIpPair → String → Bool)
    (waits : List Bool) (info : RemoteInfo) (rounds : List Round) :
    (doRegistrationV1 prc waits info rounds).serviceInfo =
      { info with stopping := (doRegistrationV1 prc waits info rounds).serviceInfo.stopping } := by
  induction waits generalizing info rounds with
  | nil =>
    have hl := attemptLoop_serviceInfo prc rounds 0 info
    rcases doRegistrationV1_cases prc [] info rounds with
      ⟨v, _, he⟩ | ⟨_, he⟩ | ⟨_, _, he⟩ | ⟨_, _, _, he⟩ | ⟨ws, _, _, hw, _⟩ | ⟨ws, _, _, hw, _⟩
    · rw [he]; exact hl
    · rw [he]; exact hl
    · rw [he]; exact hl
    · rw [he]; exact hl
    · exact absurd hw (by simp)
    · exact absurd hw (by simp)
  | cons w waits ih =>
    have hl := attemptLoop_serviceInfo prc rounds 0 info
    rcases doRegistrationV1_cases prc (w :: waits) info rounds with
      ⟨v, _, he⟩ | ⟨_, he⟩ | ⟨_, _, he⟩ | ⟨_, _, _, he⟩ | ⟨ws, _, _, hw, he⟩ | ⟨ws, _, _, hw, he⟩
    · rw [he]; exact hl
    · rw [he]; exact hl
    · rw [he]; exact hl
    · rw [he]; exact hl
    · rw [he]
      simp only []
      rw [hl]
    · rw [he]
      simp only []
      obtain ⟨_, hws⟩ := List.cons.inj hw
      subst hws
      rw [ih]
      rw [hl]

theorem doRegistrationV1_cert (prc : String → MdnsIpPair → String → Bool)
    (waits : List Bool) (info : RemoteInfo) (rounds : List Round) (msg : String)
    (hmem : WorkerEvent.processRemoteCert msg ∈ (doRegistrationV1 prc waits info rounds).trace) :
    (doRegistrationV1 prc waits info rounds).result = some (prc info.hostname info.ips msg) := by
  induction waits generalizing info rounds with
  | nil =>
    rcases doRegistrationV1_cases prc [] info rounds with
      ⟨v, hx, he⟩ | ⟨hx, he⟩ | ⟨hx, _, he⟩ | ⟨hx, _, _, he⟩ | ⟨ws, _, _, hw, _⟩ | ⟨ws, _, _, hw, _⟩
    · rw [he] at hmem ⊢
      have hc := attemptLoop_cert prc rounds 0 info msg hmem
      rw [hx] at hc
      rw [LoopExit.returned.injEq] at hc
      simp only [hc]
    · rw [he] at hmem
      have hc := attemptLoop_cert prc rounds 0 info msg hmem
      rw [hx] at hc
      exact absurd hc (by simp)
    · rw [he] at hmem
      simp only [List.mem_append, List.mem_cons, List.mem_singleton] at hmem
      rcases hmem with h | h
      · have hc := attemptLoop_cert prc rounds 0 info msg h
        rw [hx] at hc
        exact absurd hc (by simp)
      · simp at h
    · rw [he] at hmem
      simp only [List.mem_append, List.mem_cons, List.mem_singleton] at hmem
      rcases hmem with h | h
      · have hc := attemptLoop_cert prc rounds 0 info msg h
        rw [hx] at hc
        exact absurd hc (by simp)
      · simp at h
    · exact absurd hw (by simp)
    · exact absurd hw (by simp)
  | cons w waits ih =>
    rcases doRegistrationV1_cases prc (w :: waits) info rounds with
      ⟨v, hx, he⟩ | ⟨hx, he⟩ | ⟨hx, _, he⟩ | ⟨hx, _, _, he⟩ | ⟨ws, hx, _, hw, he⟩ |
      ⟨ws, hx, _, hw, he⟩
    · rw [he] at hmem ⊢
      have hc := attemptLoop_cert prc rounds 0 info msg hmem
      rw [hx] at hc
      rw [LoopExit.returned.injEq] at hc
      simp only [hc]
    · rw [he] at hmem
      have hc := attemptLoop_cert prc rounds 0 info msg hmem
      rw [hx] at hc
      exact absurd hc (by simp)
    · rw [he] at hmem
      simp only [List.mem_append, List.mem_cons, List.mem_singleton] at hmem
      rcases hmem with h | h
      · have hc := attemptLoop_cert prc rounds 0 info msg h
        rw [hx] at hc
        exact absurd hc (by simp)
      · simp at h
    · rw [he] at hmem
      simp only [List.mem_append, List.mem_cons, List.mem_singleton] at hmem
      rcases hmem with h | h
      · have hc := attemptLoop_cert prc rounds 0 info msg h
        rw [hx] at hc
        exact absurd hc (by simp)
      · simp at h
    · rw [he] at hmem
      simp only [List.mem_append, List.mem_cons, List.mem_singleton] at hmem
      rcases hmem with h | h
      · have hc := attemptLoop_cert prc rounds 0 info msg h
        rw [hx] at hc
        exact absurd hc (by simp)
      · simp at h
    · obtain ⟨_, hws⟩ := List.cons.inj hw
      subst hws
      rw [he] at hmem ⊢
      simp only [List.mem_append, List.mem_cons, List.mem_singleton] at hmem
      rcases hmem with (h | h) | h
      · have hc := attemptLoop_cert prc rounds 0 info msg h
        rw [hx] at hc
        exact absurd hc (by simp)
      · simp at h
      · have hrec := ih _ _ h
        simp only []
        rw [hrec, attemptLoop_serviceInfo]

theorem remoteThreadEntry_v1 (prc : String → MdnsIpPair → String → Bool)
    (waits : List Bool) (info : RemoteInfo) (rounds : List Round) (hv : info.apiVersion = 1) :
    (remoteThreadEntry prc waits info rounds).serviceInfo =
      (doRegistrationV1 prc waits info rounds).serviceInfo ∧
    (remoteThreadEntry prc waits info rounds).trace =
      (doRegistrationV1 prc waits info rounds).trace ∧
    (remoteThreadEntry prc waits info rounds).exitCode =
      ((doRegistrationV1 prc waits info rounds).result.map fun _ => EXIT_SUCCESS) := by
  unfold remoteThreadEntry
  rw [if_pos hv]
  cases hres : (doRegistrationV1 prc waits info rounds).result with
  | none => simp [hres]
  | some b =>
    cases b with
    | false => simp [hres]
    | true => simp [hres]

theorem visibleCount_congr (rm : RemoteManager) (pre post : List RemoteInfo)
    (a b : RemoteInfo) (h : a.visible = b.visible) :
    getVisibleHostsCount { rm with m_hosts := pre ++ a :: post } =
      getVisibleHostsCount { rm with m_hosts := pre ++ b :: post } := by
  unfold getVisibleHostsCount
  simp only [foldl_visible_count, List.countP_append, List.countP_cons, h]

/-- C11, as stated, fails: the sample record gets a reply from its own address that
the validator accepts, `doRegistrationV1` returns `true`, and the worker exits with the
record still not visible and still `REGISTERING`; the visible count stays 0. -/
theorem remoteThreadEntry_success_stays_hidden :
    samplePeer.apiVersion = 1 ∧
    (doRegistrationV1 acceptAll [] samplePeer [certRound]).result = some true ∧
    (remoteThreadEntry acceptAll [] samplePeer [certRound]).exitCode = some EXIT_SUCCESS ∧
    (remoteThreadEntry acceptAll [] samplePeer [certRound]).serviceInfo.visible = false ∧
    (remoteThreadEntry acceptAll [] samplePeer [certRound]).serviceInfo.state =
      RemoteStatus.REGISTERING ∧
    getVisibleHostsCount
      { m_srvType := "._ws._tcp.local.",
        m_hosts := [(remoteThreadEntry acceptAll [] samplePeer [certRound]).serviceInfo],
        started := ["alice"] } = 0 := by
  decide

/-- C11, amended: when the version-1 handshake of a record succeeds, the worker exits
with `EXIT_SUCCESS` and leaves the record's `visible` flag and status as they were, so
the visible count of a roster holding the record is what it was before. -/
theorem remoteThreadEntry_keeps_visible (prc : String → MdnsIpPair → String → Bool)
    (waits : List Bool) (info : RemoteInfo) (rounds : List Round)
    (hv : info.apiVersion = 1)
    (hok : (doRegistrationV1 prc waits info rounds).result = some true) :
    (remoteThreadEntry prc waits info rounds).exitCode = some EXIT_SUCCESS ∧
    (remoteThreadEntry prc waits info rounds).serviceInfo.visible = info.visible ∧
    (remoteThreadEntry prc waits info rounds).serviceInfo.state = info.state ∧
    ∀ (rm : RemoteManager) (pre post : List RemoteInfo),
      getVisibleHostsCount
        { rm with
          m_hosts := pre ++ (remoteThreadEntry prc waits info rounds).serviceInfo :: post } =
      getVisibleHostsCount { rm with m_hosts := pre ++ info :: post } := by
  obtain ⟨hinfo, _, hcode⟩ := remoteThreadEntry_v1 prc waits info rounds hv
  have hvis : (remoteThreadEntry prc waits info rounds).serviceInfo.visible = info.visible := by
    rw [hinfo, doRegistrationV1_serviceInfo]
  have hstate : (remoteThreadEntry prc waits info rounds).serviceInfo.state = info.state := by
    rw [hinfo, doRegistrationV1_serviceInfo]
  refine ⟨?_, hvis, hstate, ?_⟩
  · rw [hcode, hok]; rfl
  · intro rm pre post
    exact visibleCount_congr rm pre post _ _ hvis

/-- C11 amended, at the sample record answered by its own address. -/
theorem remoteThreadEntry_keeps_visible_witness :
    (remoteThreadEntry acceptAll [] samplePeer [certRound]).serviceInfo.visible =
      samplePeer.visible :=
  (remoteThreadEntry_keeps_visible acceptAll [] samplePeer [certRound]
    (by decide) (by decide)).2.1

theorem attemptLoop_two_timeouts_reply (prc : String → MdnsIpPair → String → Bool)
    (info : RemoteInfo) (r1 r2 r3 : Round) (rest : List Round)
    (h1 : r1.replyBuf.length = 0) (h2 : r2.replyBuf.length = 0)
    (h3 : r3.replyBuf.length ≠ 0) (haddr : r3.replyAddr = destination info) :
    attemptLoop prc 0 info (r1 :: r2 :: r3 :: rest) =
      { exit := LoopExit.returned (prc info.hostname info.ips r3.replyBuf),
        serviceInfo :=
          { info with stopping := info.stopping || r1.stopSet || r2.stopSet || r3.stopSet },
        trace := roundEvents r1 ++ (roundEvents r2 ++
          (roundEvents r3 ++ [WorkerEvent.processRemoteCert r3.replyBuf])),
        rest := rest } := by
  have e1 := attemptLoop_timeout prc 0 info r1 (r2 :: r3 :: rest) (by decide) h1
  have e2 := attemptLoop_timeout prc 1 { info with stopping := info.stopping || r1.stopSet }
    r2 (r3 :: rest) (by decide) h2
  have e3 := attemptLoop_reply prc 2
    { info with stopping := info.stopping || r1.stopSet || r2.stopSet } r3 rest
    (by decide) h3 haddr
  simp only [Nat.zero_add, Nat.reduceAdd] at e1 e2 e3
  rw [e1, e2, e3]

theorem attemptLoop_three_timeouts (prc : String → MdnsIpPair → String → Bool)
    (info : RemoteInfo) (r1 r2 r3 : Round) (rest : List Round)
    (h1 : r1.replyBuf.length = 0) (h2 : r2.replyBuf.length = 0)
    (h3 : r3.replyBuf.length = 0) :
    attemptLoop prc 0 info (r1 :: r2 :: r3 :: rest) =
      { exit := LoopExit.retryLimit,
        serviceInfo :=
          { info with stopping := info.stopping || r1.stopSet || r2.stopSet || r3.stopSet },
        trace := roundEvents r1 ++ (roundEvents r2 ++ (roundEvents r3 ++ [])),
        rest := rest } := by
  have e1 := attemptLoop_timeout prc 0 info r1 (r2 :: r3 :: rest) (by decide) h1
  have e2 := attemptLoop_timeout prc 1 { info with stopping := info.stopping || r1.stopSet }
    r2 (r3 :: rest) (by decide) h2
  have e3 := attemptLoop_timeout prc 2
    { info with stopping := info.stopping || r1.stopSet || r2.stopSet } r3 rest
    (by decide) h3
  have e4 := attemptLoop_limit prc 3
    { info with stopping := info.stopping || r1.stopSet || r2.stopSet || r3.stopSet } rest
    (by decide)
  simp only [Nat.zero_add, Nat.reduceAdd] at e1 e2 e3
  rw [e1, e2, e3, e4]

theorem count_sendTo_roundEvents (r : Round) :
    (roundEvents r).count WorkerEvent.sendTo = 1 := by
  unfold roundEvents
  cases r.stopSet <;> decide

theorem not_mem_roundEvents (r : Round) (e : WorkerEvent)
    (h1 : e ≠ WorkerEvent.sendTo) (h2 : e ≠ WorkerEvent.stopRequested) :
    e ∉ roundEvents r := by
  intro hmem
  rcases mem_roundEvents r e hmem with h | h
  · exact h1 h
  · exact h2 h.1

/-- C12: when the first two rounds time out and the third brings a reply from the
expected address that the validator accepts, `doRegistrationV1` returns `true` after
exactly three requests, without taking the record lock and without any wait; and in
every run, a reply handed to the validator makes the validator's answer the result. -/
theorem doRegistrationV1_third_round (prc : String → MdnsIpPair → String → Bool)
    (waits : List Bool) (info : RemoteInfo) (r1 r2 r3 : Round) (rest : List Round)
    (h1 : r1.replyBuf.length = 0) (h2 : r2.replyBuf.length = 0)
    (h3 : r3.replyBuf.length ≠ 0) (haddr : r3.replyAddr = destination info)
    (hacc : prc info.hostname info.ips r3.replyBuf = true) :
    (doRegistrationV1 prc waits info (r1 :: r2 :: r3 :: rest)).result = some true ∧
    (doRegistrationV1 prc waits info (r1 :: r2 :: r3 :: rest)).trace =
      roundEvents r1 ++ roundEvents r2 ++ roundEvents r3 ++
        [WorkerEvent.processRemoteCert r3.replyBuf] ∧
    (doRegistrationV1 prc waits info (r1 :: r2 :: r3 :: rest)).trace.count
      WorkerEvent.sendTo = 3 ∧
    WorkerEvent.lock ∉ (doRegistrationV1 prc waits info (r1 :: r2 :: r3 :: rest)).trace ∧
    (∀ seconds, WorkerEvent.waitFor seconds ∉
      (doRegistrationV1 prc waits info (r1 :: r2 :: r3 :: rest)).trace) ∧
    (∀ (waits2 : List Bool) (info2 : RemoteInfo) (rounds2 : List Round) (msg : String),
      WorkerEvent.processRemoteCert msg ∈ (doRegistrationV1 prc waits2 info2 rounds2).trace →
      (doRegistrationV1 prc waits2 info2 rounds2).result =
        some (prc info2.hostname info2.ips msg)) := by
  have hloop := attemptLoop_two_timeouts_reply prc info r1 r2 r3 rest h1 h2 h3 haddr
  have hrun := doRegistrationV1_returned prc waits info (r1 :: r2 :: r3 :: rest)
    (prc info.hostname info.ips r3.replyBuf) (by rw [hloop])
  have htrace : (doRegistrationV1 prc waits info (r1 :: r2 :: r3 :: rest)).trace =
      roundEvents r1 ++ roundEvents r2 ++ roundEvents r3 ++
        [WorkerEvent.processRemoteCert r3.replyBuf] := by
    rw [hrun, hloop]
    simp only [List.append_assoc]
  refine ⟨by rw [hrun, hacc], htrace, ?_, ?_, ?_, ?_⟩
  · rw [htrace]
    simp only [List.count_append, count_sendTo_roundEvents]
    rfl
  · rw [htrace]
    simp only [List.mem_append, List.mem_singleton, not_or]
    exact ⟨⟨⟨not_mem_roundEvents r1 _ (by simp) (by simp),
      not_mem_roundEvents r2 _ (by simp) (by simp)⟩,
      not_mem_roundEvents r3 _ (by simp) (by simp)⟩, by simp⟩
  · intro seconds
    rw [htrace]
    simp only [List.mem_append, List.mem_singleton, not_or]
    exact ⟨⟨⟨not_mem_roundEvents r1 _ (by simp) (by simp),
      not_mem_roundEvents r2 _ (by simp) (by simp)⟩,
      not_mem_roundEvents r3 _ (by simp) (by simp)⟩, by simp⟩
  · intro waits2 info2 rounds2 msg hmem
    exact doRegistrationV1_cert prc waits2 info2 rounds2 msg hmem

/-- C12, at the sample record: two timeouts, then the peer's certificate. -/
theorem doRegistrationV1_third_round_witness :
    (doRegistrationV1 acceptAll [] samplePeer [timeoutRound, timeoutRound, certRound]).result =
      some true :=
  (doRegistrationV1_third_round acceptAll [] samplePeer timeoutRound timeoutRound certRound []
    (by decide) (by decide) (by decide) (by decide) (by decide)).1

/-- C13: after three timeouts in a cycle the worker takes the record lock. If the flag
is set by then it returns `false` at once; otherwise it waits up to 30 seconds on the
condition variable. If the flag is set by the time the wait is over it returns `false`,
with no further request; if not, the rest of the run is a new cycle from the start. -/
theorem doRegistrationV1_backoff (prc : String → MdnsIpPair → String → Bool)
    (info : RemoteInfo) (r1 r2 r3 : Round) (rest : List Round)
    (h1 : r1.replyBuf.length = 0) (h2 : r2.replyBuf.length = 0)
    (h3 : r3.replyBuf.length = 0) :
    ((info.stopping || r1.stopSet || r2.stopSet || r3.stopSet) = true →
      ∀ waits,
        (doRegistrationV1 prc waits info (r1 :: r2 :: r3 :: rest)).result = some false ∧
        (doRegistrationV1 prc waits info (r1 :: r2 :: r3 :: rest)).trace =
          roundEvents r1 ++ roundEvents r2 ++ roundEvents r3 ++
            [WorkerEvent.lock, WorkerEvent.unlock]) ∧
    ((info.stopping || r1.stopSet || r2.stopSet || r3.stopSet) = false →
      ∀ waits,
        (doRegistrationV1 prc (true :: waits) info (r1 :: r2 :: r3 :: rest)).result =
          some false ∧
        (doRegistrationV1 prc (true :: waits) info (r1 :: r2 :: r3 :: rest)).trace =
          roundEvents r1 ++ roundEvents r2 ++ roundEvents r3 ++
            [WorkerEvent.lock, WorkerEvent.waitFor 30, WorkerEvent.stopRequested,
              WorkerEvent.unlock] ∧
        (doRegistrationV1 prc (false :: waits) info (r1 :: r2 :: r3 :: rest)).result =
          (doRegistrationV1 prc waits info rest).result ∧
        (doRegistrationV1 prc (false :: waits) info (r1 :: r2 :: r3 :: rest)).trace =
          roundEvents r1 ++ roundEvents r2 ++ roundEvents r3 ++
            [WorkerEvent.lock, WorkerEvent.waitFor 30, WorkerEvent.unlock] ++
            (doRegistrationV1 prc waits info rest).trace) := by
  have hloop := attemptLoop_three_timeouts prc info r1 r2 r3 rest h1 h2 h3
  have hexit : (attemptLoop prc 0 info (r1 :: r2 :: r3 :: rest)).exit = LoopExit.retryLimit := by
    rw [hloop]
  have hstop : (attemptLoop prc 0 info (r1 :: r2 :: r3 :: rest)).serviceInfo.stopping =
      (info.stopping || r1.stopSet || r2.stopSet || r3.stopSet) := by
    rw [hloop]
  have htrace : (attemptLoop prc 0 info (r1 :: r2 :: r3 :: rest)).trace =
      roundEvents r1 ++ roundEvents r2 ++ roundEvents r3 := by
    rw [hloop]
    simp only [List.append_assoc, List.append_nil]
  have hrest : (attemptLoop prc 0 info (r1 :: r2 :: r3 :: rest)).rest = rest := by
    rw [hloop]
  constructor
  · intro hflag waits
    rw [doRegistrationV1_cancelled prc waits info _ hexit (by rw [hstop, hflag])]
    exact ⟨rfl, by rw [htrace]⟩
  · intro hflag waits
    have hs : (attemptLoop prc 0 info (r1 :: r2 :: r3 :: rest)).serviceInfo.stopping = false := by
      rw [hstop, hflag]
    have hinfo : (attemptLoop prc 0 info (r1 :: r2 :: r3 :: rest)).serviceInfo = info := by
      have h0 : info.stopping = false := by
        cases hi : info.stopping
        · rfl
        · rw [hi] at hflag; simp at hflag
      rw [attemptLoop_serviceInfo, hs, ← h0]
    rw [doRegistrationV1_woken_stopped prc waits info _ hexit hs,
      doRegistrationV1_next_cycle prc waits info _ hexit hs]
    simp [htrace, hrest, hinfo]

/-- C13, at the sample record: three timeouts, and the flag set during the wait. -/
theorem doRegistrationV1_backoff_witness :
    (doRegistrationV1 acceptAll [true] samplePeer
        [timeoutRound, timeoutRound, timeoutRound, certRound]).result = some false ∧
    (doRegistrationV1 acceptAll [true] samplePeer
        [timeoutRound, timeoutRound, timeoutRound, certRound]).trace =
      roundEvents timeoutRound ++ roundEvents timeoutRound ++ roundEvents timeoutRound ++
        [WorkerEvent.lock, WorkerEvent.waitFor 30, WorkerEvent.stopRequested,
          WorkerEvent.unlock] :=
  ⟨((doRegistrationV1_backoff acceptAll samplePeer timeoutRound timeoutRound timeoutRound
      [certRound] (by decide) (by decide) (by decide)).2 (by decide) []).1,
    ((doRegistrationV1_backoff acceptAll samplePeer timeoutRound timeoutRound timeoutRound
      [certRound] (by decide) (by decide) (by decide)).2 (by decide) []).2.1⟩

theorem attemptLoop_no_sync (prc : String → MdnsIpPair → String → Bool)
    (rounds : List Round) (tryCount : Nat) (info : RemoteInfo) :
    WorkerEvent.lock ∉ (attemptLoop prc tryCount info rounds).trace ∧
    WorkerEvent.unlock ∉ (attemptLoop prc tryCount info rounds).trace ∧
    ∀ seconds, WorkerEvent.waitFor seconds ∉ (attemptLoop prc tryCount info rounds).trace := by
  refine ⟨?_, ?_, ?_⟩
  · intro h
    rcases attemptLoop_trace_events prc rounds tryCount info _ h with h | h | ⟨_, h⟩ <;>
      simp at h
  · intro h
    rcases attemptLoop_trace_events prc rounds tryCount info _ h with h | h | ⟨_, h⟩ <;>
      simp at h
  · intro seconds h
    rcases attemptLoop_trace_events prc rounds tryCount info _ h with h | h | ⟨_, h⟩ <;>
      simp at h

theorem attemptLoop_not_stopping (prc : String → MdnsIpPair → String → Bool)
    (rounds : List Round) (tryCount : Nat) (info : RemoteInfo)
    (hs : (attemptLoop prc tryCount info rounds).serviceInfo.stopping = false) :
    info.stopping = false ∧
    WorkerEvent.stopRequested ∉ (attemptLoop prc tryCount info rounds).trace := by
  have h := attemptLoop_stopping prc rounds tryCount info
  rw [hs] at h
  have h2 := h.symm
  rw [Bool.or_eq_false_iff] at h2
  exact ⟨h2.1, by simpa using h2.2⟩

theorem split_unique {α : Type} (a b pre post : List α) (x : α)
    (ha : x ∉ a) (hb : x ∉ b) (h : a ++ x :: b = pre ++ x :: post) :
    pre = a ∧ post = b := by
  rcases append_eq_split a (x :: b) pre post x h with ⟨mid, hpre, hmid⟩ | ⟨mid, hmid, _⟩
  · cases mid with
    | nil =>
      simp only [List.nil_append, List.cons.injEq, true_and] at hmid
      exact ⟨by simpa using hpre, hmid.symm⟩
    | cons y m2 =>
      simp only [List.cons_append, List.cons.injEq] at hmid
      exact absurd (by rw [hmid.2]; simp) hb
  · exact absurd (by rw [hmid]; simp) ha

/-- C14, as stated, fails: a worker whose record is already cancelled still sends its
first request (and can even register), and a flag set during the first round does not
keep the second and third requests of the cycle from being sent. -/
theorem doRegistrationV1_sends_after_cancel :
    (doRegistrationV1 acceptAll [] { samplePeer with stopping := true } [certRound]).trace =
      [WorkerEvent.sendTo, WorkerEvent.processRemoteCert "CERT"] ∧
    (doRegistrationV1 acceptAll [] { samplePeer with stopping := true } [certRound]).result =
      some true ∧
    (doRegistrationV1 acceptAll [] samplePeer
        [timeoutStopRound, timeoutRound, timeoutRound]).trace =
      [WorkerEvent.sendTo, WorkerEvent.stopRequested, WorkerEvent.sendTo, WorkerEvent.sendTo,
        WorkerEvent.lock, WorkerEvent.unlock] := by
  decide

theorem doRegistrationV1_unlock_last (prc : String → MdnsIpPair → String → Bool)
    (waits : List Bool) (info : RemoteInfo) (rounds : List Round)
    (pre post : List WorkerEvent)
    (htrace : (doRegistrationV1 prc waits info rounds).trace = pre ++ WorkerEvent.unlock :: post)
    (hflag : info.stopping = true ∨ WorkerEvent.stopRequested ∈ pre) :
    post = [] ∧ (doRegistrationV1 prc waits info rounds).result = some false := by
  induction waits generalizing info rounds pre post with
  | nil =>
    obtain ⟨_, hnu, _⟩ := attemptLoop_no_sync prc rounds 0 info
    rcases doRegistrationV1_cases prc [] info rounds with
      ⟨v, _, he⟩ | ⟨_, he⟩ | ⟨_, _, he⟩ | ⟨_, _, _, he⟩ | ⟨ws, _, _, hw, _⟩ | ⟨ws, _, _, hw, _⟩
    · rw [he] at htrace
      exact absurd (by
        rw [show (attemptLoop prc 0 info rounds).trace = pre ++ WorkerEvent.unlock :: post
          from htrace]
        simp) hnu
    · rw [he] at htrace
      exact absurd (by
        rw [show (attemptLoop prc 0 info rounds).trace = pre ++ WorkerEvent.unlock :: post
          from htrace]
        simp) hnu
    · rw [he] at htrace ⊢
      have hsplit := split_unique ((attemptLoop prc 0 info rounds).trace ++ [WorkerEvent.lock])
        [] pre post WorkerEvent.unlock (by simp [hnu]) (by simp) (by simpa using htrace)
      exact ⟨hsplit.2, rfl⟩
    · rw [he] at htrace
      have hmem : WorkerEvent.unlock ∈
          (attemptLoop prc 0 info rounds).trace ++ [WorkerEvent.lock, WorkerEvent.waitFor 30] := by
        rw [show (attemptLoop prc 0 info rounds).trace ++
          [WorkerEvent.lock, WorkerEvent.waitFor 30] = pre ++ WorkerEvent.unlock :: post
          from htrace]
        simp
      simp [hnu] at hmem
    · exact absurd hw (by simp)
    · exact absurd hw (by simp)
  | cons w waits ih =>
    obtain ⟨_, hnu, _⟩ := attemptLoop_no_sync prc rounds 0 info
    rcases doRegistrationV1_cases prc (w :: waits) info rounds with
      ⟨v, _, he⟩ | ⟨_, he⟩ | ⟨_, _, he⟩ | ⟨_, _, hw, _⟩ | ⟨ws, _, _, _, he⟩ |
      ⟨ws, _, hs, hw, he⟩
    · rw [he] at htrace
      exact absurd (by
        rw [show (attemptLoop prc 0 info rounds).trace = pre ++ WorkerEvent.unlock :: post
          from htrace]
        simp) hnu
    · rw [he] at htrace
      exact absurd (by
        rw [show (attemptLoop prc 0 info rounds).trace = pre ++ WorkerEvent.unlock :: post
          from htrace]
        simp) hnu
    · rw [he] at htrace ⊢
      have hsplit := split_unique ((attemptLoop prc 0 info rounds).trace ++ [WorkerEvent.lock])
        [] pre post WorkerEvent.unlock (by simp [hnu]) (by simp) (by simpa using htrace)
      exact ⟨hsplit.2, rfl⟩
    · exact absurd hw (by simp)
    · rw [he] at htrace ⊢
      have hsplit := split_unique ((attemptLoop prc 0 info rounds).trace ++
        [WorkerEvent.lock, WorkerEvent.waitFor 30, WorkerEvent.stopRequested])
        [] pre post WorkerEvent.unlock (by simp [hnu]) (by simp) (by simpa using htrace)
      exact ⟨hsplit.2, rfl⟩
    · obtain ⟨_, hws⟩ := List.cons.inj hw
      subst hws
      obtain ⟨hinfo, hnostop⟩ := attemptLoop_not_stopping prc rounds 0 info hs
      rw [he] at htrace ⊢
      simp only [] at htrace ⊢
      have htrace2 : ((attemptLoop prc 0 info rounds).trace ++
          [WorkerEvent.lock, WorkerEvent.waitFor 30]) ++
          WorkerEvent.unlock :: (doRegistrationV1 prc waits
            (attemptLoop prc 0 info rounds).serviceInfo
            (attemptLoop prc 0 info rounds).rest).trace =
          pre ++ WorkerEvent.unlock :: post := by
        rw [← htrace]; simp
      rcases append_eq_split _ _ pre post WorkerEvent.unlock htrace2 with
        ⟨mid, hpre, hmid⟩ | ⟨mid, hmid, _⟩
      · cases mid with
        | nil =>
          exfalso
          rcases hflag with h | h
          · rw [hinfo] at h; exact absurd h (by simp)
          · rw [hpre] at h
            simp [hnostop] at h
        | cons y m2 =>
          simp only [List.cons_append, List.cons.injEq] at hmid
          have hflag2 : (attemptLoop prc 0 info rounds).serviceInfo.stopping = true ∨
              WorkerEvent.stopRequested ∈ m2 := by
            rcases hflag with h | h
            · rw [hinfo] at h; exact absurd h (by simp)
            · rw [hpre] at h
              simp only [List.mem_append, List.mem_cons] at h
              rcases h with (h | h) | h
              · exact absurd h hnostop
              · simp at h
              · rcases h with h | h
                · rw [← hmid.1] at h; simp at h
                · exact Or.inr h
          exact ih _ _ m2 post hmid.2 hflag2
      · exact absurd (by rw [hmid]; simp) (show WorkerEvent.unlock ∉
          (attemptLoop prc 0 info rounds).trace ++
            [WorkerEvent.lock, WorkerEvent.waitFor 30] by simp [hnu])

theorem doRegistrationV1_wait_unflagged (prc : String → MdnsIpPair → String → Bool)
    (waits : List Bool) (info : RemoteInfo) (rounds : List Round)
    (pre post : List WorkerEvent) (seconds : Nat)
    (htrace : (doRegistrationV1 prc waits info rounds).trace =
      pre ++ WorkerEvent.waitFor seconds :: post) :
    info.stopping = false ∧ WorkerEvent.stopRequested ∉ pre := by
  induction waits generalizing info rounds pre post with
  | nil =>
    obtain ⟨_, _, hnw⟩ := attemptLoop_no_sync prc rounds 0 info
    have hmem : WorkerEvent.waitFor seconds ∈ (doRegistrationV1 prc [] info rounds).trace := by
      rw [htrace]; simp
    rcases doRegistrationV1_cases prc [] info rounds with
      ⟨v, _, he⟩ | ⟨_, he⟩ | ⟨_, _, he⟩ | ⟨_, hs, _, he⟩ | ⟨ws, _, _, hw, _⟩ | ⟨ws, _, _, hw, _⟩
    · rw [he] at hmem; exact absurd hmem (hnw seconds)
    · rw [he] at hmem; exact absurd hmem (hnw seconds)
    · rw [he] at hmem; simp [hnw seconds] at hmem
    · obtain ⟨hinfo, hnostop⟩ := attemptLoop_not_stopping prc rounds 0 info hs
      rw [he] at hmem htrace
      have h30 : seconds = 30 := by simpa [hnw seconds] using hmem
      subst h30
      have hsplit := split_unique ((attemptLoop prc 0 info rounds).trace ++ [WorkerEvent.lock])
        [] pre post (WorkerEvent.waitFor 30) (by simp [hnw 30]) (by simp)
        (by simpa using htrace)
      rw [hsplit.1]
      exact ⟨hinfo, by simp [hnostop]⟩
    · exact absurd hw (by simp)
    · exact absurd hw (by simp)
  | cons w waits ih =>
    obtain ⟨_, _, hnw⟩ := attemptLoop_no_sync prc rounds 0 info
    have hmem : WorkerEvent.waitFor seconds ∈
        (doRegistrationV1 prc (w :: waits) info rounds).trace := by
      rw [htrace]; simp
    rcases doRegistrationV1_cases prc (w :: waits) info rounds with
      ⟨v, _, he⟩ | ⟨_, he⟩ | ⟨_, _, he⟩ | ⟨_, _, hw, _⟩ | ⟨ws, _, hs, _, he⟩ |
      ⟨ws, _, hs, hw, he⟩
    · rw [he] at hmem; exact absurd hmem (hnw seconds)
    · rw [he] at hmem; exact absurd hmem (hnw seconds)
    · rw [he] at hmem; simp [hnw seconds] at hmem
    · exact absurd hw (by simp)
    · obtain ⟨hinfo, hnostop⟩ := attemptLoop_not_stopping prc rounds 0 info hs
      rw [he] at hmem htrace
      have h30 : seconds = 30 := by simpa [hnw seconds] using hmem
      subst h30
      have hsplit := split_unique ((attemptLoop prc 0 info rounds).trace ++ [WorkerEvent.lock])
        [WorkerEvent.stopRequested, WorkerEvent.unlock] pre post (WorkerEvent.waitFor 30)
        (by simp [hnw 30]) (by simp) (by simpa using htrace)
      rw [hsplit.1]
      exact ⟨hinfo, by simp [hnostop]⟩
    · obtain ⟨_, hws⟩ := List.cons.inj hw
      subst hws
      obtain ⟨hinfo, hnostop⟩ := attemptLoop_not_stopping prc rounds 0 info hs
      rw [he] at htrace
      simp only [] at htrace
      have htrace2 : ((attemptLoop prc 0 info rounds).trace ++ [WorkerEvent.lock]) ++
          (WorkerEvent.waitFor 30 :: WorkerEvent.unlock ::
            (doRegistrationV1 prc waits (attemptLoop prc 0 info rounds).serviceInfo
              (attemptLoop prc 0 info rounds).rest).trace) =
          pre ++ WorkerEvent.waitFor seconds :: post := by
        rw [← htrace]; simp
      rcases append_eq_split _ _ pre post (WorkerEvent.waitFor seconds) htrace2 with
        ⟨mid, hpre, hmid⟩ | ⟨mid, hmid, _⟩
      · cases mid with
        | nil =>
          rw [hpre]
          exact ⟨hinfo, by simp [hnostop]⟩
        | cons y m2 =>
          simp only [List.cons_append, List.cons.injEq] at hmid
          cases m2 with
          | nil => simp at hmid
          | cons z m3 =>
            simp only [List.cons_append, List.cons.injEq] at hmid
            obtain ⟨_, hnot⟩ := ih _ _ m3 post hmid.2.2
            rw [hpre, ← hmid.1, ← hmid.2.1]
            exact ⟨hinfo, by simp [hnostop, hnot]⟩
      · exact absurd (by rw [hmid]; simp) (show WorkerEvent.waitFor seconds ∉
          (attemptLoop prc 0 info rounds).trace ++ [WorkerEvent.lock] by simp [hnw seconds])

/-- C14, amended: the worker reads the flag only at the end of a cycle. In every run,
once the flag is set (at the start or by a step before it) the release of the record
lock that ends the cycle is the last step and the result is `false`, so no request of a
later cycle is sent; and a wait is entered only when the flag has not been set. The
requests of the cycle under way are still sent. -/
theorem doRegistrationV1_stops_at_cycle_end (prc : String → MdnsIpPair → String → Bool)
    (waits : List Bool) (info : RemoteInfo) (rounds : List Round)
    (pre post : List WorkerEvent) :
    ((doRegistrationV1 prc waits info rounds).trace = pre ++ WorkerEvent.unlock :: post →
      (info.stopping = true ∨ WorkerEvent.stopRequested ∈ pre) →
      post = [] ∧ (doRegistrationV1 prc waits info rounds).result = some false) ∧
    (∀ seconds,
      (doRegistrationV1 prc waits info rounds).trace =
        pre ++ WorkerEvent.waitFor seconds :: post →
      info.stopping = false ∧ WorkerEvent.stopRequested ∉ pre) :=
  ⟨fun htrace hflag => doRegistrationV1_unlock_last prc waits info rounds pre post htrace hflag,
    fun seconds htrace =>
      doRegistrationV1_wait_unflagged prc waits info rounds pre post seconds htrace⟩

/-- C14 amended, at the sample record: the flag is set during the first round, the
cycle runs to its third timeout, and the worker returns `false` with the fourth round
of the script never used. -/
theorem doRegistrationV1_stops_at_cycle_end_witness :
    (doRegistrationV1 acceptAll [] samplePeer
      [timeoutStopRound, timeoutRound, timeoutRound, certRound]).result = some false :=
  ((doRegistrationV1_stops_at_cycle_end acceptAll [] samplePeer
    [timeoutStopRound, timeoutRound, timeoutRound, certRound]
    [WorkerEvent.sendTo, WorkerEvent.stopRequested, WorkerEvent.sendTo, WorkerEvent.sendTo,
      WorkerEvent.lock] []).1 (by decide) (by decide)).2

theorem attemptLoop_exit_count (prc : String → MdnsIpPair → String → Bool)
    (rounds : List Round) (tryCount : Nat) (info : RemoteInfo)
    (h : ∀ r ∈ rounds, r.replyBuf.length = 0 ∨ r.replyAddr ≠ destination info)
    (hle : tryCount ≤ 3) :
    (attemptLoop prc tryCount info rounds).exit =
      if 3 ≤ tryCount + rounds.countP (fun r => r.replyBuf.length = 0) then
        LoopExit.retryLimit
      else LoopExit.scriptEnded := by
  induction rounds generalizing tryCount info with
  | nil =>
    by_cases hlt : tryCount < 3
    · rw [attemptLoop_nil prc tryCount info hlt]
      simp only [List.countP_nil, Nat.add_zero]
      rw [if_neg (by omega)]
    · rw [attemptLoop_limit prc tryCount info [] hlt]
      simp only [List.countP_nil, Nat.add_zero]
      rw [if_pos (by omega)]
  | cons r rest ih =>
    have hrest : ∀ b : Bool, ∀ x ∈ rest, x.replyBuf.length = 0 ∨
        x.replyAddr ≠ destination { info with stopping := b } :=
      fun _ x hx => h x (List.mem_cons_of_mem _ hx)
    rcases attemptLoop_cases prc tryCount info r rest with
      ⟨hlt, he⟩ | ⟨_, hlen, haddr, _⟩ | ⟨hlt, next, hnext, he⟩
    · rw [he, if_pos (by omega)]
    · rcases h r (List.mem_cons_self _ _) with h0 | h0
      · exact absurd h0 hlen
      · exact absurd haddr h0
    · rw [he]
      simp only []
      rcases hnext with ⟨hn, hlen⟩ | ⟨hn, hlen, _⟩
      · subst hn
        rw [ih (tryCount + 1) _ (hrest _) (by omega)]
        have hc : (r :: rest).countP (fun r => r.replyBuf.length = 0) =
            rest.countP (fun r => r.replyBuf.length = 0) + 1 := by
          rw [List.countP_cons]; simp [hlen]
        rw [hc]
        have harith : tryCount + 1 + rest.countP (fun r => r.replyBuf.length = 0) =
            tryCount + (rest.countP (fun r => r.replyBuf.length = 0) + 1) := by omega
        rw [harith]
      · subst hn
        rw [ih next _ (hrest _) hle]
        have hc : (r :: rest).countP (fun r => r.replyBuf.length = 0) =
            rest.countP (fun r => r.replyBuf.length = 0) := by
          rw [List.countP_cons]; simp [hlen]
        rw [hc]

theorem attemptLoop_consumed (prc : String → MdnsIpPair → String → Bool)
    (rounds : List Round) (tryCount : Nat) (info : RemoteInfo) (hle : tryCount ≤ 3)
    (hexit : (attemptLoop prc tryCount info rounds).exit = LoopExit.retryLimit) :
    ∃ done, rounds = done ++ (attemptLoop prc tryCount info rounds).rest ∧
      tryCount + done.countP (fun r => r.replyBuf.length = 0) = 3 ∧
      (attemptLoop prc tryCount info rounds).trace.count WorkerEvent.sendTo = done.length := by
  induction rounds generalizing tryCount info with
  | nil =>
    by_cases hlt : tryCount < 3
    · rw [attemptLoop_nil prc tryCount info hlt] at hexit
      exact absurd hexit (by simp)
    · rw [attemptLoop_limit prc tryCount info [] hlt]
      exact ⟨[], rfl, by simp only [List.countP_nil]; omega, rfl⟩
  | cons r rest ih =>
    rcases attemptLoop_cases prc tryCount info r rest with
      ⟨hlt, he⟩ | ⟨_, _, _, he⟩ | ⟨hlt, next, hnext, he⟩
    · rw [he]
      exact ⟨[], rfl, by simp only [List.countP_nil]; omega, rfl⟩
    · rw [he] at hexit
      exact absurd hexit (by simp)
    · rw [he] at hexit ⊢
      simp only [] at hexit ⊢
      rcases hnext with ⟨hn, hlen⟩ | ⟨hn, hlen, _⟩
      · subst hn
        obtain ⟨done, hsplit, hcount, hsend⟩ := ih (tryCount + 1) _ (by omega) hexit
        refine ⟨r :: done, by rw [List.cons_append, ← hsplit], ?_, ?_⟩
        · rw [List.countP_cons]
          simp only [hlen, decide_True, if_true]
          omega
        · rw [List.count_append, count_sendTo_roundEvents, hsend, List.length_cons]
          omega
      · subst hn
        obtain ⟨done, hsplit, hcount, hsend⟩ := ih next _ hle hexit
        refine ⟨r :: done, by rw [List.cons_append, ← hsplit], ?_, ?_⟩
        · rw [List.countP_cons]
          simp only [hlen, decide_False]
          simpa using hcount
        · rw [List.count_append, count_sendTo_roundEvents, hsend, List.length_cons]
          omega

theorem doRegistrationV1_lock_iff (prc : String → MdnsIpPair → String → Bool)
    (waits : List Bool) (info : RemoteInfo) (rounds : List Round) :
    WorkerEvent.lock ∈ (doRegistrationV1 prc waits info rounds).trace ↔
      (attemptLoop prc 0 info rounds).exit = LoopExit.retryLimit := by
  obtain ⟨hnl, _, _⟩ := attemptLoop_no_sync prc rounds 0 info
  rcases doRegistrationV1_cases prc waits info rounds with
    ⟨v, hx, he⟩ | ⟨hx, he⟩ | ⟨hx, _, he⟩ | ⟨hx, _, _, he⟩ | ⟨ws, hx, _, _, he⟩ |
    ⟨ws, hx, _, _, he⟩
  · rw [he, hx]; simp [hnl]
  · rw [he, hx]; simp [hnl]
  · rw [he, hx]; simp
  · rw [he, hx]; simp
  · rw [he, hx]; simp
  · rw [he, hx]; simp

/-- C15: in a run whose rounds are timeouts or replies from other addresses, the worker
reaches the backoff stage exactly when the rounds hold three timeouts; the rounds used
up to there hold exactly three timeouts, one request each; a reply from another
address leaves the attempt counter as it is, a timeout advances it by one. -/
theorem attemptLoop_counts_timeouts (prc : String → MdnsIpPair → String → Bool)
    (waits : List Bool) (info : RemoteInfo) (rounds : List Round)
    (h : ∀ r ∈ rounds, r.replyBuf.length = 0 ∨ r.replyAddr ≠ destination info) :
    (WorkerEvent.lock ∈ (doRegistrationV1 prc waits info rounds).trace ↔
      3 ≤ rounds.countP (fun r => r.replyBuf.length = 0)) ∧
    ((attemptLoop prc 0 info rounds).exit = LoopExit.retryLimit ↔
      3 ≤ rounds.countP (fun r => r.replyBuf.length = 0)) ∧
    ((attemptLoop prc 0 info rounds).exit = LoopExit.retryLimit →
      ∃ done, rounds = done ++ (attemptLoop prc 0 info rounds).rest ∧
        done.countP (fun r => r.replyBuf.length = 0) = 3 ∧
        (attemptLoop prc 0 info rounds).trace.count WorkerEvent.sendTo = done.length) ∧
    (∀ (tryCount : Nat) (r : Round) (rest : List Round), tryCount < 3 →
      r.replyBuf.length ≠ 0 → r.replyAddr ≠ destination info →
      (attemptLoop prc tryCount info (r :: rest)).exit =
        (attemptLoop prc tryCount
          { info with stopping := info.stopping || r.stopSet } rest).exit ∧
      (attemptLoop prc tryCount info (r :: rest)).rest =
        (attemptLoop prc tryCount
          { info with stopping := info.stopping || r.stopSet } rest).rest) ∧
    (∀ (tryCount : Nat) (r : Round) (rest : List Round), tryCount < 3 →
      r.replyBuf.length = 0 →
      (attemptLoop prc tryCount info (r :: rest)).exit =
        (attemptLoop prc (tryCount + 1)
          { info with stopping := info.stopping || r.stopSet } rest).exit ∧
      (attemptLoop prc tryCount info (r :: rest)).rest =
        (attemptLoop prc (tryCount + 1)
          { info with stopping := info.stopping || r.stopSet } rest).rest) := by
  have hexit : (attemptLoop prc 0 info rounds).exit = LoopExit.retryLimit ↔
      3 ≤ rounds.countP (fun r => r.replyBuf.length = 0) := by
    rw [attemptLoop_exit_count prc rounds 0 info h (by omega), Nat.zero_add]
    by_cases hc : 3 ≤ rounds.countP (fun r => r.replyBuf.length = 0)
    · simp [hc]
    · simp [hc]
  refine ⟨?_, hexit, ?_, ?_, ?_⟩
  · rw [doRegistrationV1_lock_iff, hexit]
  · intro hx
    obtain ⟨done, hsplit, hcount, hsend⟩ := attemptLoop_consumed prc rounds 0 info (by omega) hx
    exact ⟨done, hsplit, by omega, hsend⟩
  · intro tryCount r rest hlt hlen haddr
    rw [attemptLoop_stray prc tryCount info r rest hlt hlen haddr]
    exact ⟨rfl, rfl⟩
  · intro tryCount r rest hlt hlen
    rw [attemptLoop_timeout prc tryCount info r rest hlt hlen]
    exact ⟨rfl, rfl⟩

/-- C15, at the sample record: three timeouts with two stray replies in between. -/
theorem attemptLoop_counts_timeouts_witness :
    WorkerEvent.lock ∈ (doRegistrationV1 acceptAll [] samplePeer
      [timeoutRound, strayRound, timeoutRound, strayRound, timeoutRound]).trace :=
  (attemptLoop_counts_timeouts acceptAll [] samplePeer
    [timeoutRound, strayRound, timeoutRound, strayRound, timeoutRound]
    (by decide)).1.mpr (by decide)

end srv

/-! ## The host list page (C16) -/

namespace gui

open srv

theorem idTracked_iff (id : String) (tracked : List RemoteInfo) :
    idTracked id tracked = true ↔ ∃ ptr ∈ tracked, id = ptr.id := by
  induction tracked with
  | nil => simp [idTracked]
  | cons ptr rest ih =>
    unfold idTracked
    by_cases h : id = ptr.id
    · simp [h]
    · simp [h, ih]

/-- C16: handling an `ADD` event leaves the page unchanged when a tracked record has
the incoming id and appends the record otherwise, so tracked ids that were pairwise
distinct stay pairwise distinct; a `RESET` event empties the tracked list. -/
theorem onManipulateList_no_duplicate (page : HostListPage) (info : RemoteInfo) :
    ((∃ ptr ∈ page.m_trackedRemotes, info.id = ptr.id) →
      onManipulateList page { type := ThreadEventType.ADD, payload := info } = page) ∧
    ((¬ ∃ ptr ∈ page.m_trackedRemotes, info.id = ptr.id) →
      (onManipulateList page { type := ThreadEventType.ADD, payload := info }).m_trackedRemotes =
        page.m_trackedRemotes ++ [info]) ∧
    ((page.m_trackedRemotes.map RemoteInfo.id).Nodup →
      ((onManipulateList page
        { type := ThreadEventType.ADD, payload := info }).m_trackedRemotes.map
          RemoteInfo.id).Nodup) ∧
    (onManipulateList page { type := ThreadEventType.RESET, payload := info }).m_trackedRemotes =
      [] := by
  refine ⟨?_, ?_, ?_, rfl⟩
  · intro hex
    have ht := (idTracked_iff info.id page.m_trackedRemotes).mpr hex
    simp [onManipulateList, ht]
  · intro hnex
    have ht : idTracked info.id page.m_trackedRemotes = false := by
      cases hb : idTracked info.id page.m_trackedRemotes with
      | false => rfl
      | true => exact absurd ((idTracked_iff _ _).mp hb) hnex
    simp [onManipulateList, ht]
  · intro hnodup
    cases hb : idTracked info.id page.m_trackedRemotes with
    | true =>
      simp only [onManipulateList, hb, if_true]
      exact hnodup
    | false =>
      have hnex : ¬ ∃ ptr ∈ page.m_trackedRemotes, info.id = ptr.id := by
        intro hex
        rw [(idTracked_iff _ _).mpr hex] at hb
        exact absurd hb (by simp)
      simp only [onManipulateList, hb, Bool.false_eq_true, if_false, List.map_append,
        List.map_cons, List.map_nil]
      rw [List.nodup_append]
      refine ⟨hnodup, List.nodup_singleton _, ?_⟩
      intro a ha hb2
      rw [List.mem_singleton] at hb2
      obtain ⟨ptr, hptr, hid⟩ := List.mem_map.mp ha
      exact hnex ⟨ptr, hptr, by rw [hid, hb2]⟩

/-- C16, at a page that already tracks the sample record: adding it again changes
nothing. -/
theorem onManipulateList_no_duplicate_witness :
    onManipulateList { m_trackedRemotes := [samplePeer], m_hostlist := [samplePeer] }
      { type := ThreadEventType.ADD, payload := samplePeer } =
      { m_trackedRemotes := [samplePeer], m_hostlist := [samplePeer] } :=
  (onManipulateList_no_duplicate
    { m_trackedRemotes := [samplePeer], m_hostlist := [samplePeer] } samplePeer).1
    ⟨samplePeer, List.mem_singleton.mpr rfl, rfl⟩

end gui
